import Mathlib

/-!
# The redis output sink of masscan (`src/out-redis.c`)

A shallow embedding of the reply parser, the non-blocking drain and the
publish path of `out-redis.c`, and the properties of them that the
specification states.

Conventions of the embedding.

* A byte is a `Nat` (the value of an `unsigned char`); a buffer or a C string
  is a `List Nat`.
* `out->redis` is the record `Redis`; its two fields are passed in and handed
  back explicitly.
* A C function that may call `exit(1)` returns an `Outcome`: `ret v` when it
  returns `v` to its caller, `exit` when the process is terminated by
  `exit(1)`, `undefined` when the source leaves the behaviour undefined (a read
  outside the string literal, a `sprintf_s` that does not fit its buffer).
* The socket is the record `Sock`: the bytes the peer has sent and that are
  not read yet, and the log of the calls made on the socket so far.
-/

namespace OutRedis

/-! ## Outcomes -/

/-- How a call of a C function of the sink ends. -/
inductive Outcome (α : Type) where
  /-- The function returns to its caller. -/
  | ret (a : α)
  /-- The function calls `exit(1)`: the process is terminated. -/
  | exit
  /-- The source reaches a construct whose behaviour C does not define. -/
  | undefined
deriving DecidableEq, Repr

/-- The outcome with the returned value transformed. -/
def Outcome.map {α β : Type} (f : α → β) : Outcome α → Outcome β
  | .ret a => .ret (f a)
  | .exit => .exit
  | .undefined => .undefined

/-- The value a call hands back to its caller, `none` when it does not return. -/
def Outcome.result {α : Type} : Outcome α → Option α
  | .ret a => some a
  | .exit => none
  | .undefined => none

/-- The call does not return because the process was terminated by `exit(1)`. -/
def Outcome.fatal {α : Type} : Outcome α → Bool
  | .exit => true
  | _ => false

/-! ## The connection record -/

/-- The fields `out->redis.state` and `out->redis.outstanding`. -/
structure Redis where
  state : Nat
  outstanding : Nat
deriving DecidableEq, Repr

/-! ## The reply parser: `parse_state_machine` (lines 33-101) -/

/-- The enumeration of parser states declared inside `parse_state_machine`. -/
def START : Nat := 0
def NUMBER : Nat := 1
def P : Nat := 2
def PO : Nat := 3
def PON : Nat := 4
def PONG : Nat := 5
def PONG_CR : Nat := 6
def PONG_CR_LF : Nat := 7

/-- The C library `isdigit` on an `unsigned char`: the bytes `0` to `9`. -/
def isdigit (c : Nat) : Bool := 48 ≤ c && c ≤ 57

/-- The eight bytes of the string literal `"PONG+\r\n"`, terminator included. -/
def PONG_literal : List Nat := [80, 79, 78, 71, 43, 13, 10, 0]

/-- The byte `"PONG+\r\n"[idx]`. Inside the literal it is the literal's byte.
Outside the literal C does not define the read: `oob idx` says what it yields,
`some b` when the read delivers the byte `b`, `none` when nothing is known
about it. -/
def literal_at (oob : Nat → Option Nat) (idx : Nat) : Option Nat :=
  if idx < 8 then PONG_literal[idx]? else oob idx

/-- The index `i-P` of the source, `i` a 32-bit `unsigned` and `P` the
enumeration constant 2: the subtraction is taken modulo `2^32`. -/
def literal_index (i : Nat) : Nat := (i + 2 ^ 32 - P) % 2 ^ 32

/-- The loop `for (i=0; i<length; i++) switch (state) ...` of
`parse_state_machine`, from offset `i` on: the bytes `px[i..]` still to
process, the local `state` and the field `out->redis.outstanding`.
`i` is a 32-bit `unsigned`, so `i - P` is taken modulo `2^32`
(chunks are shorter than `2^32` bytes; the caller reads at most 1024). -/
def parse_loop (oob : Nat → Option Nat) :
    Nat → List Nat → Nat → Nat → Outcome (Int × Redis)
  | _, [], state, outstanding => .ret (0, ⟨state, outstanding⟩)
  | i, c :: rest, state, outstanding =>
    if state = START then
      if c = 43 then parse_loop oob (i + 1) rest P outstanding
      else if c = 58 then parse_loop oob (i + 1) rest NUMBER outstanding
      else .exit
    else if state = NUMBER then
      if isdigit c || c == 13 then parse_loop oob (i + 1) rest state outstanding
      else if c = 10 then
        if outstanding = 0 then .exit
        else parse_loop oob (i + 1) rest 0 (outstanding - 1)
      else .exit
    else if state = P ∨ state = PO ∨ state = PON ∨ state = PONG_CR
        ∨ state = PONG_CR_LF then
      match literal_at oob (literal_index i) with
      | none => .undefined
      | some e =>
        if e = c then
          -- state++
          if c = 10 then .ret (1, ⟨0, outstanding⟩)
          else .exit -- no break: control falls into the default label
        else .exit
    else .exit

/-- The function `parse_state_machine(out, px, length)`: the value returned and
the fields of `out->redis` after the call. -/
def parse_state_machine (oob : Nat → Option Nat) (out : Redis) (px : List Nat) :
    Outcome (Int × Redis) :=
  parse_loop oob 0 px out.state out.outstanding

/-- The bytes of an ASCII string. -/
def bytes (s : String) : List Nat := s.toList.map Char.toNat

/-- The caller's view of a sequence of reads: `parse_state_machine` is called
on each chunk in turn, on the record the previous call left (the caller of
`clean_response_queue` discards the value returned). -/
def feed (oob : Nat → Option Nat) : List (List Nat) → Redis → Outcome Redis
  | [], out => .ret out
  | c :: cs, out =>
    match parse_state_machine oob out c with
    | .ret (_, out1) => feed oob cs out1
    | .exit => .exit
    | .undefined => .undefined

/-! ## The socket -/

/-- A call made on the socket. -/
inductive Event where
  /-- The call `send(fd, buf, len, 0)`: the bytes of `buf` and the length given. -/
  | send (buf : List Nat) (len : Int)
  /-- The call `select(nfds, &readfds, 0, 0, &tv)`. -/
  | select
  /-- The call `recv(fd, buf, size, 0)`. -/
  | recv (size : Nat)
deriving DecidableEq, Repr

/-- The socket `fd`: the bytes the peer has sent that no `recv` has taken yet,
and the calls made on the socket so far, oldest first. -/
structure Sock where
  inbox : List Nat
  log : List Event
deriving DecidableEq, Repr

/-- The call `send(fd, buf, len, 0)`. The number of bytes it reports is up to
the environment and is an argument of the caller. -/
def send (fd : Sock) (buf : List Nat) (len : Int) : Sock :=
  { fd with log := fd.log ++ [Event.send buf len] }

/-- The call `select` with a zero timeout. The number of ready descriptors it
reports is up to the environment and is an argument of the caller. -/
def select (fd : Sock) : Sock :=
  { fd with log := fd.log ++ [Event.select] }

/-- The call `recv(fd, buf, size, 0)`: the bytes read, at most `size` of those
the peer has sent, and the socket after the call. A peer that has nothing more
to send has closed the connection: the read has length zero. -/
def recv (fd : Sock) (size : Nat) : List Nat × Sock :=
  (fd.inbox.take size,
    { inbox := fd.inbox.drop size, log := fd.log ++ [Event.recv size] })

/-! ## The drain: `clean_response_queue` (lines 105-144) -/

/-- The function `clean_response_queue(out, fd)`; `x` is what `select`
reports. The value returned, the fields of `out->redis` and the socket after
the call. -/
def clean_response_queue (oob : Nat → Option Nat) (x : Int) (out : Redis)
    (fd : Sock) : Outcome ((Int × Redis) × Sock) :=
  let fd1 := select fd
  if x = 0 then .ret ((1, out), fd1)
  else if x < 0 then .exit
  else if x ≠ 1 then .exit
  else
    let r := recv fd1 1024
    if r.1.length = 0 then .exit
    else (parse_state_machine oob out r.1).map (fun v => (v, r.2))

/-! ## The publish path: `redis_out_status` (lines 197-244) -/

/-- What `out-redis.c` takes from headers that are not part of the sources at
hand: the enumeration constant `PortStatus_Open`, the two lookups of
`masscan.h` (the C strings they return, without the terminator), and the
width in bits of the unsigned field `out->redis.outstanding` of `output.h`. -/
structure Ext where
  PortStatus_Open : Int
  name_from_ip_proto : Nat → List Nat
  reason_string : Nat → List Nat
  counter_bits : Nat

/-- The arguments of `redis_out_status` that describe the event. -/
structure Report where
  timestamp : Int
  status : Int
  ip : Nat
  ip_proto : Nat
  port : Nat
  reason : Nat
  ttl : Nat
deriving DecidableEq, Repr

/-- The conversion `%u` of the C library: decimal, no padding. -/
def fmt_u (n : Nat) : List Nat := (Nat.toDigits 10 n).map Char.toNat

/-- The conversion `%d` of the C library: decimal, a minus sign when negative. -/
def fmt_d (v : Int) : List Nat :=
  if v < 0 then 45 :: fmt_u v.natAbs else fmt_u v.toNat

/-- The conversion `%s` of the C library: the bytes up to the first zero byte. -/
def fmt_s (s : List Nat) : List Nat := s.takeWhile (fun b => b != 0)

/-- The cast `(int) timestamp` to a 32-bit two's complement `int`. -/
def int_cast (t : Int) : Int := (t + 2 ^ 31) % 2 ^ 32 - 2 ^ 31

/-- Modelled from the spec: `sprintf_s` is declared in a header that is not
part of the sources at hand. Given the size of the buffer and the text the
format produces, it stores the text and returns its length when the text and
its terminator fit the buffer; what it does otherwise is not modelled
(`none`). -/
def sprintf_s (size : Nat) (text : List Nat) : Option (List Nat × Int) :=
  if text.length < size then some (text, (text.length : Int)) else none

/-- The text of the format `"%u.%u.%u.%u,%u,%s,%d,%u,%s"` with the arguments
of lines 217-225. -/
def payload_text (ext : Ext) (ev : Report) : List Nat :=
  fmt_u ((ev.ip >>> 24) % 256) ++ [46] ++
  fmt_u ((ev.ip >>> 16) % 256) ++ [46] ++
  fmt_u ((ev.ip >>> 8) % 256) ++ [46] ++
  fmt_u ((ev.ip >>> 0) % 256) ++ [44] ++
  fmt_u ev.port ++ [44] ++
  fmt_s (ext.name_from_ip_proto ev.ip_proto) ++ [44] ++
  fmt_d (int_cast ev.timestamp) ++ [44] ++
  fmt_u ev.ttl ++ [44] ++
  fmt_s (ext.reason_string ev.reason)

/-- The text of the format of lines 229-232 with the arguments
`payload_length, payload`. -/
def command_text (payload_length : Int) (payload : List Nat) : List Nat :=
  bytes "*3\r\n$7\r\nPUBLISH\r\n$7\r\nmasscan\r\n$" ++ fmt_d payload_length ++
  [13, 10] ++ fmt_s payload ++ [13, 10]

/-- The two `sprintf_s` calls of `redis_out_status` (lines 216-234): the
buffer `line` and `line_length`. -/
def build_command (ext : Ext) (ev : Report) : Option (List Nat × Int) :=
  match sprintf_s 128 (payload_text ext ev) with
  | none => none
  | some (payload, payload_length) =>
    sprintf_s 256 (command_text payload_length payload)

/-- The function `redis_out_status(out, fp, timestamp, status, ip, ip_proto,
port, reason, ttl)`; `bytes_sent` is what `send` reports and `x` what the
`select` of the drain reports. The fields of `out->redis` and the socket
after the call. -/
def redis_out_status (ext : Ext) (oob : Nat → Option Nat) (bytes_sent : Nat)
    (x : Int) (out : Redis) (fd : Sock) (ev : Report) : Outcome (Redis × Sock) :=
  if ev.status ≠ ext.PortStatus_Open then .ret (out, fd)
  else
    match build_command ext ev with
    | none => .undefined
    | some (line, line_length) =>
      let fd1 := send fd line line_length
      if (bytes_sent : Int) ≠ line_length then .ret (out, fd1)
      else
        let out1 : Redis :=
          { out with outstanding := (out.outstanding + 1) % 2 ^ ext.counter_bits }
        (clean_response_queue oob x out1 fd1).map (fun v => (v.1.2, v.2))

/-- One call of `redis_out_status` with what the environment answers to it:
the event, what `send` reports, what `select` reports. -/
structure Publish where
  ev : Report
  bytes_sent : Nat
  x : Int

/-- A sequence of calls of `redis_out_status`, each on the record and the
socket the previous one left. -/
def publish_all (ext : Ext) (oob : Nat → Option Nat) :
    List Publish → Redis → Sock → Outcome (Redis × Sock)
  | [], out, fd => .ret (out, fd)
  | p :: ps, out, fd =>
    match redis_out_status ext oob p.bytes_sent p.x out fd p.ev with
    | .ret (out1, fd1) => publish_all ext oob ps out1 fd1
    | .exit => .exit
    | .undefined => .undefined

/-- The buffers handed to `send` on the socket so far, oldest first. -/
def Sock.sent (fd : Sock) : List (List Nat) :=
  fd.log.filterMap (fun e => match e with
    | Event.send buf _ => some buf
    | _ => none)

/-- The call is a publish of an open-status event whose command is built and
sent whole: `send` reports the length it was given. -/
def Publish.complete (ext : Ext) (p : Publish) : Bool :=
  p.ev.status == ext.PortStatus_Open &&
    (match build_command ext p.ev with
     | none => false
     | some (_, line_length) => (p.bytes_sent : Int) == line_length)

/-- The command as the specification writes it:
`*3\r\n$7\r\nPUBLISH\r\n$7\r\nmasscan\r\n$<M>\r\n<payload>\r\n`, `<M>` the
decimal rendering of the number of bytes of the payload. -/
def spec_publish_command (payload : List Nat) : List Nat :=
  bytes "*3\r\n$7\r\nPUBLISH\r\n$7\r\nmasscan\r\n$" ++ fmt_u payload.length ++
  [13, 10] ++ payload ++ [13, 10]

/-- Lookups that name every protocol `tcp` and every reason `syn-ack`, the
status `PortStatus_Open` numbered 1 and a 64-bit counter (used in examples). -/
def ext0 : Ext :=
  { PortStatus_Open := 1,
    name_from_ip_proto := fun _ => bytes "tcp",
    reason_string := fun _ => bytes "syn-ack",
    counter_bits := 64 }

/-- The open-status event of the specification's formatting example. -/
def ev0 : Report :=
  { timestamp := 1700000000, status := 1, ip := 0x01020304, ip_proto := 6,
    port := 80, reason := 18, ttl := 64 }

/-! ## Replies and streams -/

/-- An integer reply on the wire: `:`, decimal digits, `\r\n`. -/
def integer_reply (digits : List Nat) : List Nat := 58 :: (digits ++ [13, 10])

/-- The simple-string reply `+PONG\r\n` on the wire. -/
def pong_reply : List Nat := [43, 80, 79, 78, 71, 13, 10]

/-- The replies the specification calls valid. -/
inductive Reply where
  | integer (digits : List Nat)
  | pong
deriving DecidableEq, Repr

/-- The bytes of a reply. -/
def Reply.wire : Reply → List Nat
  | .integer digits => integer_reply digits
  | .pong => pong_reply

/-- The digits of an integer reply are decimal digits. -/
def Reply.valid : Reply → Bool
  | .integer digits => digits.all isdigit
  | .pong => true

/-- The byte stream of a sequence of replies. -/
def stream (rs : List Reply) : List Nat := (rs.map Reply.wire).flatten

/-- The run of the parser over `px` from `state` never meets the byte `\n`
while it is in a state other than `START` and `NUMBER` (a device of the
proofs: on such input the offset `i` has no influence on the result). -/
def no_lf_in_literal : List Nat → Nat → Nat → Bool
  | [], _, _ => true
  | c :: rest, state, outstanding =>
    if state = START then
      if c = 43 then no_lf_in_literal rest P outstanding
      else if c = 58 then no_lf_in_literal rest NUMBER outstanding
      else true
    else if state = NUMBER then
      if isdigit c || c == 13 then no_lf_in_literal rest state outstanding
      else if c = 10 then
        if outstanding = 0 then true
        else no_lf_in_literal rest 0 (outstanding - 1)
      else true
    else c != 10

/-! ## The drain, seen from its caller -/

/-- The body of `clean_response_queue` with the parser it calls taken as an
argument (to say which calls of the drain reach the parser). -/
def clean_response_queue_with (parse : Redis → List Nat → Outcome (Int × Redis))
    (x : Int) (out : Redis) (fd : Sock) : Outcome ((Int × Redis) × Sock) :=
  let fd1 := select fd
  if x = 0 then .ret ((1, out), fd1)
  else if x < 0 then .exit
  else if x ≠ 1 then .exit
  else
    let r := recv fd1 1024
    if r.1.length = 0 then .exit
    else (parse out r.1).map (fun v => (v, r.2))

/-- A sequence of calls of `clean_response_queue`, one for each answer of
`select` in the list, each on the record and the socket the previous one
left. -/
def drain_all (oob : Nat → Option Nat) : List Int → Redis → Sock → Outcome (Redis × Sock)
  | [], out, fd => .ret (out, fd)
  | x :: xs, out, fd =>
    match clean_response_queue oob x out fd with
    | .ret ((_, out1), fd1) => drain_all oob xs out1 fd1
    | .exit => .exit
    | .undefined => .undefined

/-! ## The line reader: `recv_line` (lines 10-29) -/

/-- The loop `while (count < buf_size)` of `recv_line`: `room` is
`buf_size - count`, `line` the bytes stored in `buf[0..count)` so far. Each
turn is one `recv` of one byte. -/
def recv_line_loop : Nat → Sock → Nat → List Nat → Outcome ((Nat × List Nat) × Sock)
  | 0, fd, count, line => .ret ((count, line), fd)
  | room + 1, fd, count, line =>
    let r := recv fd 1
    if r.1.length = 0 then .exit
    else if r.1 = [10] then .ret ((count + 1, line ++ r.1), r.2)
    else recv_line_loop room r.2 (count + 1) (line ++ r.1)

/-- The function `recv_line(fd, buf, buf_size)`: the count returned, the bytes
stored in `buf[0..count)`, and the socket after the call. -/
def recv_line (fd : Sock) (buf_size : Nat) : Outcome ((Nat × List Nat) × Sock) :=
  recv_line_loop buf_size fd 0 []

/-- The first line of a byte stream as the specification describes it: the
bytes before the first `\n`, and that `\n`. -/
def spec_first_line (s : List Nat) : List Nat :=
  s.takeWhile (fun b => b != 10) ++ [10]

/-! ## The handshakes: `redis_out_open` and `redis_out_close` (lines 149-193) -/

/-- The C library `memcmp(a, b, n)`, as far as its callers look at it: 0 when
the first `n` bytes agree, not 0 otherwise (the sign is not modelled). -/
def memcmp (a b : List Nat) (n : Nat) : Int :=
  if a.take n = b.take n then 0 else 1

/-- The function `redis_out_open(out, fp)`; `bytes_sent` is what `send`
reports and `line0` what the local array `line` holds before the call (it is
not initialised). The record `out->redis`, which the function does not touch,
and the socket after the call. -/
def redis_out_open (bytes_sent : Nat) (line0 : List Nat) (out : Redis) (fd : Sock) :
    Outcome (Redis × Sock) :=
  let fd1 := send fd (bytes "PING\r\n") 6
  if bytes_sent ≠ 6 then .exit
  else
    match recv_line fd1 1024 with
    | .exit => .exit
    | .undefined => .undefined
    | .ret ((count, received), fd2) =>
      let line := received ++ line0.drop count
      if count ≠ 7 ∧ memcmp line (bytes "+PONG\r\n") 7 ≠ 0 then .exit
      else .ret (out, fd2)

/-- The function `redis_out_close(out, fp)`, with the same arguments as
`redis_out_open`. -/
def redis_out_close (bytes_sent : Nat) (line0 : List Nat) (out : Redis) (fd : Sock) :
    Outcome (Redis × Sock) :=
  let fd1 := send fd (bytes "QUIT\r\n") 6
  if bytes_sent ≠ 6 then .exit
  else
    match recv_line fd1 1024 with
    | .exit => .exit
    | .undefined => .undefined
    | .ret ((count, received), fd2) =>
      let line := received ++ line0.drop count
      if (count ≠ 5 ∧ memcmp line (bytes "+OK\r\n") 5 ≠ 0)
          ∧ (count ≠ 4 ∧ memcmp line (bytes ":0\r\n") 4 ≠ 0) then .exit
      else .ret (out, fd2)

/-! ## The payload as the specification describes it -/

/-- The decimal rendering of a number, without padding. -/
def spec_decimal (n : Nat) : List Nat := bytes (toString n)

/-- The record `a.b.c.d,port,p,t,ttl,r` of the specification: `a`, `b`, `c`,
`d` the values of bits 31..24, 23..16, 15..8 and 7..0 of `ip`. -/
def spec_payload (ip port : Nat) (p : List Nat) (t ttl : Nat) (r : List Nat) : List Nat :=
  spec_decimal (ip / 2 ^ 24 % 256) ++ bytes "." ++
  spec_decimal (ip / 2 ^ 16 % 256) ++ bytes "." ++
  spec_decimal (ip / 2 ^ 8 % 256) ++ bytes "." ++
  spec_decimal (ip % 256) ++ bytes "," ++
  spec_decimal port ++ bytes "," ++ p ++ bytes "," ++
  spec_decimal t ++ bytes "," ++ spec_decimal ttl ++ bytes "," ++ r

/-! ## Lemmas on the parser loop -/

theorem parse_loop_nil (oob : Nat → Option Nat) (i state n : Nat) :
    parse_loop oob i [] state n = .ret (0, ⟨state, n⟩) := by
  simp [parse_loop]

/-- Processing `a ++ b` is processing `a` and, unless that ended the call,
going on with `b` at the offset reached. -/
theorem parse_loop_append (oob : Nat → Option Nat) (a b : List Nat) :
    ∀ (i state n : Nat),
      parse_loop oob i (a ++ b) state n =
        match parse_loop oob i a state n with
        | .ret (rv, r) =>
          if rv = 0 then parse_loop oob (i + a.length) b r.state r.outstanding
          else .ret (rv, r)
        | .exit => .exit
        | .undefined => .undefined := by
  induction a with
  | nil => intro i state n; simp [parse_loop]
  | cons c rest ih =>
    intro i state n
    have e : i + (c :: rest).length = i + 1 + rest.length := by
      simp [List.length_cons]; omega
    rw [e, List.cons_append]
    simp only [parse_loop]
    split_ifs <;> try simp [ih]
    all_goals (cases literal_at oob (literal_index i) <;> simp)
    split_ifs <;> simp

/-- Where no line feed meets a literal-match state, a prefix that is parsed to
its end returns 0 and leaves the rest in the same situation. -/
theorem parse_loop_prefix (oob : Nat → Option Nat) (a b : List Nat) :
    ∀ (i state n : Nat) (rv : Int) (r : Redis),
      no_lf_in_literal (a ++ b) state n = true →
      parse_loop oob i a state n = .ret (rv, r) →
      rv = 0 ∧ no_lf_in_literal b r.state r.outstanding = true := by
  induction a with
  | nil =>
    intro i state n rv r h hr
    simp [parse_loop] at hr
    obtain ⟨h1, h2⟩ := hr
    subst h1 h2
    simpa using h
  | cons c rest ih =>
    intro i state n rv r h hr
    rw [List.cons_append] at h
    simp only [parse_loop, no_lf_in_literal] at h hr
    cases hl : literal_at oob (literal_index i) <;> rw [hl] at hr <;>
      split_ifs at h hr <;> first
        | exact ih _ _ _ _ _ h hr
        | simp_all

/-- Where no line feed meets a literal-match state, the offset at which the
loop starts has no influence on what the call hands back. -/
theorem parse_loop_offset_free (oob : Nat → Option Nat) (px : List Nat) :
    ∀ (i j state n : Nat), no_lf_in_literal px state n = true →
      (parse_loop oob i px state n).result = (parse_loop oob j px state n).result := by
  induction px with
  | nil => intro i j state n _; simp [parse_loop]
  | cons c rest ih =>
    intro i j state n h
    simp only [parse_loop, no_lf_in_literal] at h ⊢
    cases hi : literal_at oob (literal_index i) <;>
      cases hj : literal_at oob (literal_index j) <;>
      split_ifs at h ⊢ <;> first
        | exact ih _ _ _ _ h
        | simp_all [Outcome.result]

/-- Digits keep the parser in state `NUMBER`. -/
theorem parse_loop_digits (oob : Nat → Option Nat) (ds tail : List Nat)
    (hd : ds.all isdigit = true) :
    ∀ (i n : Nat), parse_loop oob i (ds ++ tail) NUMBER n =
      parse_loop oob (i + ds.length) tail NUMBER n := by
  induction ds with
  | nil => intro i n; simp
  | cons d rest ih =>
    intro i n
    simp only [List.all_cons, Bool.and_eq_true] at hd
    have e : i + (d :: rest).length = i + 1 + rest.length := by
      simp [List.length_cons]; omega
    rw [e, List.cons_append, ← ih hd.2]
    simp [parse_loop, NUMBER, START, hd.1]

/-- One integer reply, met in state `START` with a counter that is not zero,
decrements the counter and leaves the parser in state `START`. -/
theorem parse_loop_integer_reply (oob : Nat → Option Nat) (ds tail : List Nat)
    (hd : ds.all isdigit = true) (i n : Nat) :
    parse_loop oob i (integer_reply ds ++ tail) START (n + 1) =
      parse_loop oob (i + (integer_reply ds).length) tail START n := by
  have e : integer_reply ds ++ tail = 58 :: (ds ++ (13 :: 10 :: tail)) := by
    simp [integer_reply]
  have l : i + (integer_reply ds).length = i + 1 + ds.length + 1 + 1 := by
    simp [integer_reply]; omega
  have s1 : ∀ X : List Nat, parse_loop oob i (58 :: X) START (n + 1) =
      parse_loop oob (i + 1) X NUMBER (n + 1) := by
    intro X; simp [parse_loop, START]
  rw [e, l, s1, parse_loop_digits oob ds _ hd]
  simp [parse_loop, NUMBER, START, isdigit]

theorem no_lf_digits (ds tail : List Nat) (hd : ds.all isdigit = true) (n : Nat) :
    no_lf_in_literal (ds ++ tail) NUMBER n = no_lf_in_literal tail NUMBER n := by
  induction ds with
  | nil => simp
  | cons d rest ih =>
    simp only [List.all_cons, Bool.and_eq_true] at hd
    rw [List.cons_append, ← ih hd.2]
    simp [no_lf_in_literal, NUMBER, START, hd.1]

/-- A stream of valid replies never brings a line feed to a literal-match
state: the byte after `+` is `P`, and there the call ends. -/
theorem no_lf_stream (rs : List Reply) (hv : ∀ r ∈ rs, r.valid = true) :
    ∀ n : Nat, no_lf_in_literal (stream rs) START n = true := by
  induction rs with
  | nil => intro n; simp [stream, no_lf_in_literal]
  | cons r rs ih =>
    intro n
    have hr : r.valid = true := hv r (List.mem_cons_self _ _)
    have ih1 := ih (fun q hq => hv q (List.mem_cons_of_mem _ hq))
    have e : stream (r :: rs) = r.wire ++ stream rs := by simp [stream]
    rw [e]
    cases r with
    | integer ds =>
      have e2 : (Reply.integer ds).wire ++ stream rs
          = 58 :: (ds ++ (13 :: 10 :: stream rs)) := by
        simp [Reply.wire, integer_reply]
      have s1 : ∀ X : List Nat, no_lf_in_literal (58 :: X) START n =
          no_lf_in_literal X NUMBER n := by
        intro X; simp [no_lf_in_literal, START]
      rw [e2, s1, no_lf_digits ds _ hr]
      by_cases hn : n = 0
      · simp [no_lf_in_literal, NUMBER, START, isdigit, hn]
      · have := ih1 (n - 1)
        simp [no_lf_in_literal, NUMBER, START, isdigit, hn]
        simpa [START] using this
    | pong =>
      simp [Reply.wire, pong_reply, no_lf_in_literal, START, NUMBER, P]

/-- Feeding the chunks one call at a time hands back what one call on their
concatenation hands back, as long as no line feed meets a literal-match
state. -/
theorem feed_flatten (oob : Nat → Option Nat) (chunks : List (List Nat)) :
    ∀ out : Redis, no_lf_in_literal chunks.flatten out.state out.outstanding = true →
      (feed oob chunks out).result =
        (parse_state_machine oob out chunks.flatten).result.map Prod.snd := by
  induction chunks with
  | nil => intro out _; simp [feed, parse_state_machine, parse_loop, Outcome.result]
  | cons c cs ih =>
    intro out h
    rw [List.flatten_cons] at h ⊢
    simp only [feed, parse_state_machine]
    rw [parse_loop_append]
    cases hc : parse_loop oob 0 c out.state out.outstanding with
    | exit => simp [Outcome.result]
    | undefined => simp [Outcome.result]
    | ret v =>
      obtain ⟨rv, r⟩ := v
      obtain ⟨h0, hrest⟩ := parse_loop_prefix oob c cs.flatten 0 _ _ rv r h hc
      subst h0
      simp only [if_true]
      rw [ih r hrest, parse_state_machine,
        parse_loop_offset_free oob cs.flatten (0 + c.length) 0 _ _ hrest]

/-- The counter never grows inside the parser. -/
theorem parse_loop_outstanding_le (oob : Nat → Option Nat) (px : List Nat) :
    ∀ (i state n : Nat) (rv : Int) (r : Redis),
      parse_loop oob i px state n = .ret (rv, r) → r.outstanding ≤ n := by
  induction px with
  | nil =>
    intro i state n rv r h
    simp [parse_loop] at h
    rw [← h.2]
  | cons c rest ih =>
    intro i state n rv r h
    simp only [parse_loop] at h
    cases hl : literal_at oob (literal_index i) <;> rw [hl] at h <;>
      split_ifs at h <;> first
        | exact ih _ _ _ _ _ h
        | exact Nat.le_trans (ih _ _ _ _ _ h) (Nat.sub_le _ _)
        | exact Outcome.noConfusion h
        | (simp only [] at h
           split_ifs at h
           all_goals (simp at h; rw [← h.2]))

/-- When every read outside the literal delivers a byte, the parser either
returns or calls `exit(1)`. -/
theorem parse_loop_defined (oob : Nat → Option Nat)
    (ho : ∀ k, (oob k).isSome = true) (px : List Nat) :
    ∀ (i state n : Nat), parse_loop oob i px state n ≠ .undefined := by
  induction px with
  | nil => intro i state n; simp [parse_loop]
  | cons c rest ih =>
    intro i state n
    simp only [parse_loop]
    have hl : (literal_at oob (literal_index i)).isSome = true := by
      unfold literal_at
      split_ifs with h
      · have : literal_index i < PONG_literal.length := by simpa [PONG_literal] using h
        simp [List.getElem?_eq_getElem this]
      · exact ho _
    obtain ⟨e, he⟩ := Option.isSome_iff_exists.mp hl
    rw [he]
    split_ifs <;> first
      | exact ih _ _ _
      | (by_cases hec : e = c <;> simp [hec])

/-- Integer replies one after the other, met in state `START` with a counter
that covers them, are consumed to the end. -/
theorem parse_loop_integer_replies (oob : Nat → Option Nat) (ds : List (List Nat))
    (hd : ∀ d ∈ ds, d.all isdigit = true) :
    ∀ (i n : Nat), ds.length ≤ n →
      parse_loop oob i (ds.map integer_reply).flatten START n =
        .ret (0, ⟨START, n - ds.length⟩) := by
  induction ds with
  | nil => intro i n _; simp [parse_loop]
  | cons d rest ih =>
    intro i n hn
    have ih1 := ih (fun q hq => hd q (List.mem_cons_of_mem _ hq))
    have hd1 : d.all isdigit = true := hd d (List.mem_cons_self _ _)
    simp only [List.length_cons] at hn
    obtain ⟨m, rfl⟩ : ∃ m, n = m + 1 := ⟨n - 1, by omega⟩
    rw [List.map_cons, List.flatten_cons, parse_loop_integer_reply oob d _ hd1,
      ih1 _ m (by omega)]
    simp [List.length_cons]

/-- When every read outside the literal delivers a byte, feeding chunks
either returns or calls `exit(1)`. -/
theorem feed_defined (oob : Nat → Option Nat)
    (ho : ∀ k, (oob k).isSome = true) (chunks : List (List Nat)) :
    ∀ out : Redis, feed oob chunks out ≠ .undefined := by
  induction chunks with
  | nil => intro out; simp [feed]
  | cons c cs ih =>
    intro out
    simp only [feed, parse_state_machine]
    have hp := parse_loop_defined oob ho c 0 out.state out.outstanding
    cases hc : parse_loop oob 0 c out.state out.outstanding with
    | exit => simp
    | undefined => exact absurd hc hp
    | ret v => exact ih _

/-! ## The claims on the reply parser -/

/-- C1: chunk boundaries never change semantics. For every stream that is a
concatenation of valid replies (integer replies and `+PONG\r\n`), every
starting counter `n` and every way of cutting the stream into consecutive
chunks, calling `parse_state_machine` on the chunks in order from state
`START` hands back exactly what one call on the whole stream hands back: both
do not return, or both return with the same persisted state and the same
counter. When the reads outside the literal deliver a byte, the two outcomes
are the same outcome (both `exit(1)`, or both the same return). -/
theorem chunk_boundaries_never_change_semantics (oob : Nat → Option Nat)
    (rs : List Reply) (chunks : List (List Nat)) (n : Nat)
    (hv : ∀ r ∈ rs, r.valid = true)
    (hsplit : chunks.flatten = stream rs)
    (_hlen : (stream rs).length < 2 ^ 32) :
    (feed oob chunks ⟨START, n⟩).result =
        (parse_state_machine oob ⟨START, n⟩ (stream rs)).result.map Prod.snd
    ∧ ((∀ k, (oob k).isSome = true) →
        feed oob chunks ⟨START, n⟩ =
          (parse_state_machine oob ⟨START, n⟩ (stream rs)).map Prod.snd) := by
  have h1 : (feed oob chunks ⟨START, n⟩).result =
      (parse_state_machine oob ⟨START, n⟩ (stream rs)).result.map Prod.snd := by
    rw [← hsplit]
    apply feed_flatten
    rw [hsplit]
    exact no_lf_stream rs hv n
  refine ⟨h1, fun ho => ?_⟩
  have hf := feed_defined oob ho chunks ⟨START, n⟩
  have hp := parse_loop_defined oob ho (stream rs) 0 START n
  revert h1 hf hp
  simp only [parse_state_machine]
  cases feed oob chunks ⟨START, n⟩ <;>
    cases parse_loop oob 0 (stream rs) START n <;>
    simp [Outcome.result, Outcome.map]

/-- C1 at a concrete input: two integer replies cut after 1 and after 3 bytes. -/
theorem chunk_boundaries_never_change_semantics_witness :
    (∀ r ∈ [Reply.integer [53], Reply.integer [49, 50]], r.valid = true)
    ∧ [[58], [53, 13], [10, 58, 49, 50, 13, 10]].flatten
        = stream [Reply.integer [53], Reply.integer [49, 50]]
    ∧ (stream [Reply.integer [53], Reply.integer [49, 50]]).length < 2 ^ 32
    ∧ ((feed (fun _ => none) [[58], [53, 13], [10, 58, 49, 50, 13, 10]] ⟨START, 2⟩).result =
        (parse_state_machine (fun _ => none) ⟨START, 2⟩
          (stream [Reply.integer [53], Reply.integer [49, 50]])).result.map Prod.snd
      ∧ ((∀ k, ((fun _ => none : Nat → Option Nat) k).isSome = true) →
        feed (fun _ => none) [[58], [53, 13], [10, 58, 49, 50, 13, 10]] ⟨START, 2⟩ =
          (parse_state_machine (fun _ => none) ⟨START, 2⟩
            (stream [Reply.integer [53], Reply.integer [49, 50]])).map Prod.snd)) :=
  ⟨by decide, by decide, by decide,
    chunk_boundaries_never_change_semantics (fun _ => none)
      [Reply.integer [53], Reply.integer [49, 50]]
      [[58], [53, 13], [10, 58, 49, 50, 13, 10]] 2 (by decide) (by decide) (by decide)⟩

/-- C2: for every chunk that is the concatenation of `k` integer replies
(`:`, zero or more decimal digits, `\r\n`) and every counter `n >= k`,
`parse_state_machine` started in state `START` returns 0, leaves the
persisted state `START` and the counter `n - k`, whatever the digits are. -/
theorem integer_replies_only_decrement (oob : Nat → Option Nat)
    (ds : List (List Nat)) (n : Nat)
    (hd : ∀ d ∈ ds, d.all isdigit = true)
    (hn : ds.length ≤ n)
    (_hlen : (ds.map integer_reply).flatten.length < 2 ^ 32) :
    parse_state_machine oob ⟨START, n⟩ (ds.map integer_reply).flatten =
      .ret (0, ⟨START, n - ds.length⟩) :=
  parse_loop_integer_replies oob ds hd 0 n hn

/-- C2 at a concrete input: the chunk `:5\r\n:\r\n:12\r\n` with counter 4. -/
theorem integer_replies_only_decrement_witness :
    (∀ d ∈ [[53], [], [49, 50]], d.all isdigit = true)
    ∧ [[53], [], [49, 50]].length ≤ 4
    ∧ ([[53], [], [49, 50]].map integer_reply).flatten.length < 2 ^ 32
    ∧ parse_state_machine (fun _ => none) ⟨START, 4⟩
        ([[53], [], [49, 50]].map integer_reply).flatten =
      .ret (0, ⟨START, 4 - [[53], [], [49, 50]].length⟩) :=
  ⟨by decide, by decide, by decide,
    integer_replies_only_decrement (fun _ => none) [[53], [], [49, 50]] 4
      (by decide) (by decide) (by decide)⟩

/-- C3: the counter is never decremented below zero. For every starting
state, every counter `n` and every chunk, a call of `parse_state_machine`
that returns leaves a counter that is at most `n`; and a `\n` that completes
an integer reply (it is processed in state `NUMBER`) while the counter is 0
ends the call with `exit(1)`. -/
theorem outstanding_never_below_zero (oob : Nat → Option Nat) (out : Redis)
    (px : List Nat) (_hlen : px.length < 2 ^ 32) :
    (∀ (rv : Int) (r : Redis), parse_state_machine oob out px = .ret (rv, r) →
        r.outstanding ≤ out.outstanding)
    ∧ (∀ (pre rest : List Nat), px = pre ++ 10 :: rest →
        parse_state_machine oob out pre = .ret (0, ⟨NUMBER, 0⟩) →
        parse_state_machine oob out px = .exit) := by
  constructor
  · intro rv r h
    exact parse_loop_outstanding_le oob px 0 out.state out.outstanding rv r h
  · intro pre rest hpx hpre
    subst hpx
    simp only [parse_state_machine] at hpre ⊢
    rw [parse_loop_append, hpre]
    simp [parse_loop, NUMBER, START, isdigit]

/-- C3 at a concrete input: the chunk `:5\r\n:6\r\n` with counter 1 is out of
sync at its second line feed. -/
theorem outstanding_never_below_zero_witness :
    (bytes ":5\r\n:6\r\n").length < 2 ^ 32
    ∧ parse_state_machine (fun _ => none) ⟨START, 1⟩ (bytes ":5\r\n:6\r\n") = .exit :=
  ⟨by decide,
    (outstanding_never_below_zero (fun _ => none) ⟨START, 1⟩ (bytes ":5\r\n:6\r\n")
      (by decide)).2 (bytes ":5\r\n:6\r") [] (by decide) (by decide)⟩

/-- C4: the chunk `+PONG\r\n` in state `START` is never reported as a
handshake match. Whatever the counter, the byte `P` at offset 1 is compared
with `"PONG+\r\n"[1-P]`, a read outside the literal; if that read delivers a
byte the call ends in `exit(1)` (on a mismatch at once, on a match by falling
into the `default` label), so the call never returns. -/
theorem pong_chunk_never_matches (oob : Nat → Option Nat) (n : Nat) :
    parse_state_machine oob ⟨START, n⟩ pong_reply =
        (if (oob 4294967295).isSome then .exit else .undefined)
    ∧ (parse_state_machine oob ⟨START, n⟩ pong_reply).result = none := by
  have h : parse_state_machine oob ⟨START, n⟩ pong_reply =
      (if (oob 4294967295).isSome then .exit else .undefined) := by
    have hi : literal_index (0 + 1) = 4294967295 := by decide
    simp only [parse_state_machine, pong_reply, parse_loop, hi, literal_at]
    cases oob 4294967295 <;> simp [START, P, NUMBER]
  refine ⟨h, ?_⟩
  rw [h]
  split_ifs <;> rfl

/-! ## Lemmas on the formatting -/

theorem digitChar_toNat_ne_zero (d : Nat) : (Nat.digitChar d).toNat ≠ 0 := by
  by_cases h : d < 16
  · interval_cases d <;> decide
  · unfold Nat.digitChar
    repeat rw [if_neg (by omega)]
    decide

theorem toDigitsCore_ne_zero (fuel : Nat) :
    ∀ (n : Nat) (acc : List Char), (∀ c ∈ acc, c.toNat ≠ 0) →
      ∀ c ∈ Nat.toDigitsCore 10 fuel n acc, c.toNat ≠ 0 := by
  induction fuel with
  | zero => intro n acc h; simpa [Nat.toDigitsCore] using h
  | succ f ih =>
    intro n acc h
    have h2 : ∀ c ∈ Nat.digitChar (n % 10) :: acc, c.toNat ≠ 0 := by
      intro c hc
      rcases List.mem_cons.mp hc with rfl | hc
      · exact digitChar_toNat_ne_zero _
      · exact h c hc
    simp only [Nat.toDigitsCore]
    split_ifs
    · exact h2
    · exact ih _ _ h2

/-- A decimal rendering has no zero byte. -/
theorem fmt_u_ne_zero (n : Nat) : ∀ b ∈ fmt_u n, b ≠ 0 := by
  intro b hb
  simp only [fmt_u, Nat.toDigits, List.mem_map] at hb
  obtain ⟨c, hc, rfl⟩ := hb
  exact toDigitsCore_ne_zero _ _ _ (by simp) c hc

theorem fmt_d_ne_zero (v : Int) : ∀ b ∈ fmt_d v, b ≠ 0 := by
  intro b hb
  unfold fmt_d at hb
  split_ifs at hb
  · rcases List.mem_cons.mp hb with rfl | hb
    · decide
    · exact fmt_u_ne_zero _ b hb
  · exact fmt_u_ne_zero _ b hb

theorem fmt_s_ne_zero (s : List Nat) : ∀ b ∈ fmt_s s, b ≠ 0 := by
  intro b hb
  have := List.mem_takeWhile_imp hb
  simpa using this

/-- A buffer without a zero byte is printed whole by `%s`. -/
theorem fmt_s_eq_self (s : List Nat) (h : ∀ b ∈ s, b ≠ 0) : fmt_s s = s := by
  unfold fmt_s
  rw [List.takeWhile_eq_self_iff]
  intro b hb
  simpa using h b hb

theorem fmt_d_natCast (k : Nat) : fmt_d (k : Int) = fmt_u k := by
  simp [fmt_d]

theorem payload_text_ne_zero (ext : Ext) (ev : Report) :
    ∀ b ∈ payload_text ext ev, b ≠ 0 := by
  intro b hb
  simp only [payload_text, List.mem_append, List.mem_singleton] at hb
  casesm* _ ∨ _
  all_goals first
    | exact fmt_u_ne_zero _ b (by assumption)
    | exact fmt_d_ne_zero _ b (by assumption)
    | exact fmt_s_ne_zero _ b (by assumption)
    | (subst b; decide)

theorem fmt_u_length_le (n : Nat) (h : n < 128) : (fmt_u n).length ≤ 3 := by
  interval_cases n <;> decide

theorem sprintf_s_fit (size : Nat) (text : List Nat) (h : text.length < size) :
    sprintf_s size text = some (text, (text.length : Int)) := by
  unfold sprintf_s
  rw [if_pos h]

/-- The command built for an event whose payload fits its buffer is the
command of the specification, and `line_length` is its length. -/
theorem build_command_eq (ext : Ext) (ev : Report)
    (hfit : (payload_text ext ev).length < 128) :
    build_command ext ev =
      some (spec_publish_command (payload_text ext ev),
        ((spec_publish_command (payload_text ext ev)).length : Int)) := by
  have hl := fmt_u_length_le _ hfit
  have hp : (bytes "*3\r\n$7\r\nPUBLISH\r\n$7\r\nmasscan\r\n$").length = 31 := by decide
  have e : command_text ((payload_text ext ev).length : Int) (payload_text ext ev)
      = spec_publish_command (payload_text ext ev) := by
    simp only [command_text, spec_publish_command, fmt_d_natCast,
      fmt_s_eq_self _ (payload_text_ne_zero ext ev)]
  have hlen : (spec_publish_command (payload_text ext ev)).length < 256 := by
    simp only [spec_publish_command, List.length_append, hp, List.length_cons,
      List.length_nil]
    omega
  unfold build_command
  rw [sprintf_s_fit _ _ hfit]
  simp only []
  rw [e, sprintf_s_fit _ _ hlen]

/-! ## Lemmas on the publish path -/

/-- After `+`, a byte other than a line feed ends the call without a return. -/
theorem parse_loop_plus (oob : Nat → Option Nat) (i c n : Nat) (rest : List Nat)
    (hc : c ≠ 10) :
    (parse_loop oob i (43 :: c :: rest) START n).result = none := by
  simp only [parse_loop]
  cases literal_at oob (literal_index (i + 1)) <;>
    simp [START, P, NUMBER, hc, Outcome.result]

/-- An integer reply met in state `START` with the counter at 0 is out of
sync. -/
theorem parse_loop_integer_reply_zero (oob : Nat → Option Nat) (ds tail : List Nat)
    (hd : ds.all isdigit = true) (i : Nat) :
    parse_loop oob i (integer_reply ds ++ tail) START 0 = .exit := by
  have e : integer_reply ds ++ tail = 58 :: (ds ++ (13 :: 10 :: tail)) := by
    simp [integer_reply]
  have s1 : ∀ X : List Nat, parse_loop oob i (58 :: X) START 0 =
      parse_loop oob (i + 1) X NUMBER 0 := by
    intro X; simp [parse_loop, START]
  rw [e, s1, parse_loop_digits oob ds _ hd]
  simp [parse_loop, NUMBER, START, isdigit]

/-- What `Publish.complete` says. -/
theorem complete_iff (ext : Ext) (p : Publish) :
    p.complete ext = true ↔
      p.ev.status = ext.PortStatus_Open ∧
        ∃ line len, build_command ext p.ev = some (line, len) ∧
          (p.bytes_sent : Int) = len := by
  unfold Publish.complete
  cases h : build_command ext p.ev with
  | none => simp
  | some v =>
    obtain ⟨line, len⟩ := v
    simp
    intro _
    exact eq_comm

/-- The call on an event that is not open. -/
theorem redis_out_status_not_open (ext : Ext) (oob : Nat → Option Nat)
    (bs : Nat) (x : Int) (out : Redis) (fd : Sock) (ev : Report)
    (h : ev.status ≠ ext.PortStatus_Open) :
    redis_out_status ext oob bs x out fd ev = .ret (out, fd) := by
  unfold redis_out_status
  rw [if_pos h]

/-- The call on an open event whose `send` reports another length. -/
theorem redis_out_status_send_failed (ext : Ext) (oob : Nat → Option Nat)
    (bs : Nat) (x : Int) (out : Redis) (fd : Sock) (ev : Report)
    (line : List Nat) (len : Int)
    (hopen : ev.status = ext.PortStatus_Open)
    (hcmd : build_command ext ev = some (line, len))
    (hfail : (bs : Int) ≠ len) :
    redis_out_status ext oob bs x out fd ev = .ret (out, send fd line len) := by
  unfold redis_out_status
  rw [if_neg (not_not.mpr hopen), hcmd]
  simp only []
  rw [if_pos hfail]

/-- The call on an open event whose `send` reports the whole length. -/
theorem redis_out_status_sent (ext : Ext) (oob : Nat → Option Nat)
    (bs : Nat) (x : Int) (out : Redis) (fd : Sock) (ev : Report)
    (line : List Nat) (len : Int)
    (hopen : ev.status = ext.PortStatus_Open)
    (hcmd : build_command ext ev = some (line, len))
    (hsent : (bs : Int) = len) :
    redis_out_status ext oob bs x out fd ev =
      (clean_response_queue oob x
        ⟨out.state, (out.outstanding + 1) % 2 ^ ext.counter_bits⟩
        (send fd line len)).map (fun v => (v.1.2, v.2)) := by
  unfold redis_out_status
  rw [if_neg (not_not.mpr hopen), hcmd]
  simp only []
  rw [if_neg (not_not.mpr hsent)]

/-- The drain when `select` reports nothing to read. -/
theorem clean_response_queue_zero (oob : Nat → Option Nat) (out : Redis) (fd : Sock) :
    clean_response_queue oob 0 out fd = .ret ((1, out), select fd) := by
  unfold clean_response_queue
  simp

/-- Publishes that are sent whole while nothing is readable add their number
to the counter. -/
theorem publish_all_quiet (ext : Ext) (oob : Nat → Option Nat) :
    ∀ (ps : List Publish) (out : Redis) (fd : Sock),
      (∀ p ∈ ps, p.complete ext = true ∧ p.x = 0) →
      out.outstanding + ps.length < 2 ^ ext.counter_bits →
      ∃ fd1, publish_all ext oob ps out fd =
          .ret (⟨out.state, out.outstanding + ps.length⟩, fd1)
        ∧ fd1.inbox = fd.inbox := by
  intro ps
  induction ps with
  | nil => intro out fd _ _; exact ⟨fd, by simp [publish_all], rfl⟩
  | cons p ps ih =>
    intro out fd h hlt
    obtain ⟨hc, hx⟩ := h p (List.mem_cons_self _ _)
    obtain ⟨hopen, line, len, hcmd, hsent⟩ := (complete_iff ext p).mp hc
    simp only [List.length_cons] at hlt
    have hmod : (out.outstanding + 1) % 2 ^ ext.counter_bits = out.outstanding + 1 :=
      Nat.mod_eq_of_lt (by omega)
    have hstep : redis_out_status ext oob p.bytes_sent p.x out fd p.ev =
        .ret (⟨out.state, out.outstanding + 1⟩, select (send fd line len)) := by
      rw [redis_out_status_sent ext oob _ _ out fd p.ev line len hopen hcmd hsent,
        hx, clean_response_queue_zero, hmod]
      rfl
    obtain ⟨fd1, h1, h2⟩ := ih ⟨out.state, out.outstanding + 1⟩
      (select (send fd line len))
      (fun q hq => h q (List.mem_cons_of_mem _ hq)) (by simp only []; omega)
    have e : out.outstanding + (p :: ps).length = out.outstanding + 1 + ps.length := by
      simp only [List.length_cons]; omega
    refine ⟨fd1, ?_, ?_⟩
    · rw [e]
      simp only [publish_all, hstep]
      exact h1
    · rw [h2]; rfl

/-- The drain on a readable socket whose read is not empty hands the bytes
read to the parser. -/
theorem clean_response_queue_one (oob : Nat → Option Nat) (out : Redis) (fd : Sock)
    (h : (fd.inbox.take 1024).length ≠ 0) :
    clean_response_queue oob 1 out fd =
      (parse_state_machine oob out (fd.inbox.take 1024)).map
        (fun v => (v, (recv (select fd) 1024).2)) := by
  unfold clean_response_queue
  have h1 : ¬ ((1 : Int) = 0) := by decide
  have h2 : ¬ ((1 : Int) < 0) := by decide
  have h3 : ¬ ((1 : Int) ≠ 1) := by decide
  have h4 : ¬ ((recv (select fd) 1024).1.length = 0) := h
  simp only [h1, h2, h3, h4, if_false]
  rfl

/-! ## The claims on the publish path -/

/-- C5 as stated fails: after three publishes that leave the counter at 3, a
drain whose read returns `+OK\r\n:0\r\n:0\r\n` does not return, whatever a
read outside the literal yields (the byte `O` after `+` ends the call). -/
theorem end_to_end_ok_reply_counterexample :
    (publish_all ext0 (fun _ => none)
        [⟨ev0, 73, 0⟩, ⟨ev0, 73, 0⟩, ⟨ev0, 73, 0⟩] ⟨START, 0⟩ ⟨[], []⟩).result.map
        Prod.fst = some ⟨START, 3⟩
    ∧ ¬ ∃ (oob : Nat → Option Nat) (fd : Sock),
        fd.inbox = bytes "+OK\r\n:0\r\n:0\r\n" ∧
        (clean_response_queue oob 1 ⟨START, 3⟩ fd).result ≠ none := by
  refine ⟨by decide, ?_⟩
  rintro ⟨oob, fd, hin, h⟩
  apply h
  have e : fd.inbox.take 1024 = 43 :: 79 :: [75, 13, 10, 58, 48, 13, 10, 58, 48, 13, 10] := by
    rw [hin]; decide
  rw [clean_response_queue_one oob _ fd (by rw [e]; decide), e]
  have hp := parse_loop_plus oob 0 79 3 [75, 13, 10, 58, 48, 13, 10, 58, 48, 13, 10]
    (by decide)
  simp only [parse_state_machine]
  revert hp
  cases parse_loop oob 0 (43 :: 79 :: [75, 13, 10, 58, 48, 13, 10, 58, 48, 13, 10]) START 3 <;>
    simp [Outcome.result, Outcome.map]

/-- C5, amended: from a zeroed connection (state `START`, counter 0), three
publishes of open-status events that are sent whole while nothing is readable
leave the counter at 3; one following drain whose single read returns the
chunk `:0\r\n:0\r\n:0\r\n` returns 0 with the counter at 0 and the state
`START`, the socket read empty; and a further complete integer reply given to
the parser after that ends in `exit(1)` (out of sync). -/
theorem end_to_end_accounting (ext : Ext) (oob : Nat → Option Nat)
    (p1 p2 p3 : Publish) (fd : Sock) (ds : List Nat)
    (hbits : 3 < 2 ^ ext.counter_bits)
    (h1 : p1.complete ext = true ∧ p1.x = 0)
    (h2 : p2.complete ext = true ∧ p2.x = 0)
    (h3 : p3.complete ext = true ∧ p3.x = 0)
    (hd : ds.all isdigit = true) :
    ∃ fd3, publish_all ext oob [p1, p2, p3] ⟨START, 0⟩ fd = .ret (⟨START, 3⟩, fd3)
      ∧ ∃ fd4,
          clean_response_queue oob 1 ⟨START, 3⟩
              { fd3 with inbox := bytes ":0\r\n:0\r\n:0\r\n" } =
            .ret ((0, ⟨START, 0⟩), fd4)
          ∧ fd4.inbox = []
          ∧ parse_state_machine oob ⟨START, 0⟩ (integer_reply ds) = .exit := by
  have hall : ∀ p ∈ [p1, p2, p3], p.complete ext = true ∧ p.x = 0 := by
    intro p hp
    simp only [List.mem_cons, List.mem_singleton, List.not_mem_nil, or_false] at hp
    rcases hp with rfl | rfl | rfl
    · exact h1
    · exact h2
    · exact h3
  obtain ⟨fd3, hpub, _⟩ := publish_all_quiet ext oob [p1, p2, p3] ⟨START, 0⟩ fd hall
    (by simpa using hbits)
  refine ⟨fd3, by simpa using hpub, ?_⟩
  have e : (bytes ":0\r\n:0\r\n:0\r\n").take 1024 =
      ([[48], [48], [48]].map integer_reply).flatten := by decide
  have hparse : parse_state_machine oob ⟨START, 3⟩
      ([[48], [48], [48]].map integer_reply).flatten = .ret (0, ⟨START, 0⟩) :=
    parse_loop_integer_replies oob [[48], [48], [48]] (by decide) 0 3 (by decide)
  have hdrop : (bytes ":0\r\n:0\r\n:0\r\n").drop 1024 = [] := by decide
  have hne : ((bytes ":0\r\n:0\r\n:0\r\n").take 1024).length ≠ 0 := by decide
  refine ⟨(recv (select { fd3 with inbox := bytes ":0\r\n:0\r\n:0\r\n" }) 1024).2,
    ?_, hdrop, ?_⟩
  · rw [clean_response_queue_one oob _ _ hne]
    simp only []
    rw [e, hparse]
    rfl
  · have := parse_loop_integer_reply_zero oob ds [] hd 0
    simpa [parse_state_machine] using this

/-- C5 amended, at a concrete input: three publishes of the example event. -/
theorem end_to_end_accounting_witness :
    3 < 2 ^ ext0.counter_bits
    ∧ ((⟨ev0, 73, 0⟩ : Publish).complete ext0 = true ∧ (⟨ev0, 73, 0⟩ : Publish).x = 0)
    ∧ [53].all isdigit = true
    ∧ ∃ fd3, publish_all ext0 (fun _ => none)
          [⟨ev0, 73, 0⟩, ⟨ev0, 73, 0⟩, ⟨ev0, 73, 0⟩] ⟨START, 0⟩ ⟨[], []⟩ =
          .ret (⟨START, 3⟩, fd3)
      ∧ ∃ fd4,
          clean_response_queue (fun _ => none) 1 ⟨START, 3⟩
              { fd3 with inbox := bytes ":0\r\n:0\r\n:0\r\n" } =
            .ret ((0, ⟨START, 0⟩), fd4)
          ∧ fd4.inbox = []
          ∧ parse_state_machine (fun _ => none) ⟨START, 0⟩ (integer_reply [53]) = .exit :=
  ⟨by decide, by decide, by decide,
    end_to_end_accounting ext0 (fun _ => none) ⟨ev0, 73, 0⟩ ⟨ev0, 73, 0⟩ ⟨ev0, 73, 0⟩
      ⟨[], []⟩ [53] (by decide) (by decide) (by decide) (by decide) (by decide)⟩

/-- C6: for every open-status event whose formatted payload fits the 128-byte
buffer, the command built is the command of the specification,
`*3\r\n$7\r\nPUBLISH\r\n$7\r\nmasscan\r\n$<M>\r\n<payload>\r\n` with `<M>` the
decimal number of bytes of the payload, and `line_length` is its length; that
buffer and that length are what `redis_out_status` passes to `send` (the
socket every later step sees is `send fd line line_length`). -/
theorem publish_command_format (ext : Ext) (oob : Nat → Option Nat) (bs : Nat)
    (x : Int) (out : Redis) (fd : Sock) (ev : Report)
    (hopen : ev.status = ext.PortStatus_Open)
    (hfit : (payload_text ext ev).length < 128) :
    build_command ext ev =
        some (spec_publish_command (payload_text ext ev),
          ((spec_publish_command (payload_text ext ev)).length : Int))
    ∧ redis_out_status ext oob bs x out fd ev =
        (if bs ≠ (spec_publish_command (payload_text ext ev)).length then
          .ret (out, send fd (spec_publish_command (payload_text ext ev))
            ((spec_publish_command (payload_text ext ev)).length : Int))
        else
          (clean_response_queue oob x
            ⟨out.state, (out.outstanding + 1) % 2 ^ ext.counter_bits⟩
            (send fd (spec_publish_command (payload_text ext ev))
              ((spec_publish_command (payload_text ext ev)).length : Int))).map
            (fun v => (v.1.2, v.2))) := by
  have hcmd := build_command_eq ext ev hfit
  refine ⟨hcmd, ?_⟩
  by_cases hb : bs = (spec_publish_command (payload_text ext ev)).length
  · rw [if_neg (not_not.mpr hb)]
    exact redis_out_status_sent ext oob bs x out fd ev _ _ hopen hcmd (by rw [hb])
  · rw [if_pos hb]
    exact redis_out_status_send_failed ext oob bs x out fd ev _ _ hopen hcmd
      (by exact_mod_cast hb)

/-- C6 at a concrete input: the example event, lookups `tcp` and `syn-ack`. -/
theorem publish_command_format_witness :
    ev0.status = ext0.PortStatus_Open
    ∧ (payload_text ext0 ev0).length < 128
    ∧ build_command ext0 ev0 =
        some (spec_publish_command (payload_text ext0 ev0),
          ((spec_publish_command (payload_text ext0 ev0)).length : Int)) :=
  ⟨by decide, by decide,
    (publish_command_format ext0 (fun _ => none) 73 0 ⟨START, 0⟩ ⟨[], []⟩ ev0
      (by decide) (by decide)).1⟩

/-- C7 as stated fails: for the example event the buffer passed to `send` is
not the command with the length prefix `$37`. -/
theorem publish_example_counterexample :
    (redis_out_status ext0 (fun _ => none) 73 0 ⟨START, 0⟩ ⟨[], []⟩ ev0).result.map
        (fun v => v.2.sent) ≠
      some [bytes
        "*3\r\n$7\r\nPUBLISH\r\n$7\r\nmasscan\r\n$37\r\n1.2.3.4,80,tcp,1700000000,64,syn-ack\r\n"] := by
  decide

/-- C7, amended: for an open-status event with ip 0x01020304, port 80,
protocol name `tcp`, timestamp 1700000000, ttl 64 and reason string
`syn-ack`, the payload is `1.2.3.4,80,tcp,1700000000,64,syn-ack` (36 bytes)
and the command built and passed to `send` is exactly
`*3\r\n$7\r\nPUBLISH\r\n$7\r\nmasscan\r\n$36\r\n1.2.3.4,80,tcp,1700000000,64,syn-ack\r\n`,
73 bytes. -/
theorem publish_example_command (ext : Ext) (oob : Nat → Option Nat) (bs : Nat)
    (x : Int) (out : Redis) (fd : Sock) (ev : Report)
    (hopen : ev.status = ext.PortStatus_Open)
    (hip : ev.ip = 0x01020304) (hport : ev.port = 80)
    (hname : ext.name_from_ip_proto ev.ip_proto = bytes "tcp")
    (hts : ev.timestamp = 1700000000) (httl : ev.ttl = 64)
    (hreason : ext.reason_string ev.reason = bytes "syn-ack") :
    payload_text ext ev = bytes "1.2.3.4,80,tcp,1700000000,64,syn-ack"
    ∧ (payload_text ext ev).length = 36
    ∧ build_command ext ev = some (bytes
        "*3\r\n$7\r\nPUBLISH\r\n$7\r\nmasscan\r\n$36\r\n1.2.3.4,80,tcp,1700000000,64,syn-ack\r\n",
        73)
    ∧ redis_out_status ext oob bs x out fd ev =
        (if bs ≠ 73 then
          .ret (out, send fd (bytes
            "*3\r\n$7\r\nPUBLISH\r\n$7\r\nmasscan\r\n$36\r\n1.2.3.4,80,tcp,1700000000,64,syn-ack\r\n")
            73)
        else
          (clean_response_queue oob x
            ⟨out.state, (out.outstanding + 1) % 2 ^ ext.counter_bits⟩
            (send fd (bytes
              "*3\r\n$7\r\nPUBLISH\r\n$7\r\nmasscan\r\n$36\r\n1.2.3.4,80,tcp,1700000000,64,syn-ack\r\n")
              73)).map (fun v => (v.1.2, v.2))) := by
  have hp : payload_text ext ev = bytes "1.2.3.4,80,tcp,1700000000,64,syn-ack" := by
    simp only [payload_text, hip, hport, hname, hts, httl, hreason]
    decide
  have hcmd : build_command ext ev = some (bytes
      "*3\r\n$7\r\nPUBLISH\r\n$7\r\nmasscan\r\n$36\r\n1.2.3.4,80,tcp,1700000000,64,syn-ack\r\n",
      73) := by
    unfold build_command
    rw [hp]
    decide
  refine ⟨hp, by rw [hp]; decide, hcmd, ?_⟩
  by_cases hb : bs = 73
  · rw [if_neg (not_not.mpr hb)]
    exact redis_out_status_sent ext oob bs x out fd ev _ _ hopen hcmd (by rw [hb]; rfl)
  · rw [if_pos hb]
    exact redis_out_status_send_failed ext oob bs x out fd ev _ _ hopen hcmd
      (by exact_mod_cast hb)

/-- C7 amended, at a concrete input, through `redis_out_status`: the one
buffer sent is the command with the prefix `$36`. -/
theorem publish_example_command_witness :
    ev0.status = ext0.PortStatus_Open
    ∧ ev0.ip = 0x01020304 ∧ ev0.port = 80
    ∧ ext0.name_from_ip_proto ev0.ip_proto = bytes "tcp"
    ∧ ev0.timestamp = 1700000000 ∧ ev0.ttl = 64
    ∧ ext0.reason_string ev0.reason = bytes "syn-ack"
    ∧ build_command ext0 ev0 = some (bytes
        "*3\r\n$7\r\nPUBLISH\r\n$7\r\nmasscan\r\n$36\r\n1.2.3.4,80,tcp,1700000000,64,syn-ack\r\n",
        73)
    ∧ (redis_out_status ext0 (fun _ => none) 73 0 ⟨START, 0⟩ ⟨[], []⟩ ev0).result.map
        (fun v => v.2.sent) =
      some [bytes
        "*3\r\n$7\r\nPUBLISH\r\n$7\r\nmasscan\r\n$36\r\n1.2.3.4,80,tcp,1700000000,64,syn-ack\r\n"] :=
  ⟨by decide, by decide, by decide, by decide, by decide, by decide, by decide,
    (publish_example_command ext0 (fun _ => none) 73 0 ⟨START, 0⟩ ⟨[], []⟩ ev0
      (by decide) (by decide) (by decide) (by decide) (by decide) (by decide)
      (by decide)).2.2.1,
    by decide⟩

/-- C8: for every event whose status is not `PortStatus_Open`, and every
connection state, `redis_out_status` returns with the record (parser state and
counter) and the socket (unread bytes and log of calls: no `send`, no
`select`, no `recv`) exactly as they were. -/
theorem non_open_status_is_noop (ext : Ext) (oob : Nat → Option Nat) (bs : Nat)
    (x : Int) (out : Redis) (fd : Sock) (ev : Report)
    (h : ev.status ≠ ext.PortStatus_Open) :
    redis_out_status ext oob bs x out fd ev = .ret (out, fd) :=
  redis_out_status_not_open ext oob bs x out fd ev h

/-- C8 at a concrete input: the example event with status 2. -/
theorem non_open_status_is_noop_witness :
    ({ ev0 with status := 2 } : Report).status ≠ ext0.PortStatus_Open
    ∧ redis_out_status ext0 (fun _ => none) 73 1 ⟨NUMBER, 5⟩ ⟨[58], [Event.select]⟩
        { ev0 with status := 2 } = .ret (⟨NUMBER, 5⟩, ⟨[58], [Event.select]⟩) :=
  ⟨by decide,
    non_open_status_is_noop ext0 (fun _ => none) 73 1 ⟨NUMBER, 5⟩ ⟨[58], [Event.select]⟩
      { ev0 with status := 2 } (by decide)⟩

/-- C9: for every open-status event whose command is built, if `send` reports
a byte count different from the command's length, `redis_out_status` returns
(no `exit`), the record is unchanged (counter not incremented, parser state
as it was), and the only call added to the socket's log is the `send`: no
`select` and no `recv`, so the drain is not invoked and no byte is read. -/
theorem send_failure_is_not_fatal (ext : Ext) (oob : Nat → Option Nat) (bs : Nat)
    (x : Int) (out : Redis) (fd : Sock) (ev : Report) (line : List Nat) (len : Int)
    (hopen : ev.status = ext.PortStatus_Open)
    (hcmd : build_command ext ev = some (line, len))
    (hfail : (bs : Int) ≠ len) :
    redis_out_status ext oob bs x out fd ev = .ret (out, send fd line len)
    ∧ (send fd line len).log = fd.log ++ [Event.send line len]
    ∧ (send fd line len).inbox = fd.inbox :=
  ⟨redis_out_status_send_failed ext oob bs x out fd ev line len hopen hcmd hfail,
    rfl, rfl⟩

/-- C9 at a concrete input: `send` reports 10 of the 73 bytes while a reply is
readable. -/
theorem send_failure_is_not_fatal_witness :
    ev0.status = ext0.PortStatus_Open
    ∧ build_command ext0 ev0 = some (spec_publish_command (payload_text ext0 ev0), 73)
    ∧ ((10 : Nat) : Int) ≠ 73
    ∧ (redis_out_status ext0 (fun _ => none) 10 1 ⟨START, 2⟩ ⟨[58, 48, 13, 10], []⟩ ev0 =
        .ret (⟨START, 2⟩,
          send ⟨[58, 48, 13, 10], []⟩ (spec_publish_command (payload_text ext0 ev0)) 73)
      ∧ (send ⟨[58, 48, 13, 10], []⟩ (spec_publish_command (payload_text ext0 ev0)) 73).log =
          [] ++ [Event.send (spec_publish_command (payload_text ext0 ev0)) 73]
      ∧ (send ⟨[58, 48, 13, 10], []⟩ (spec_publish_command (payload_text ext0 ev0)) 73).inbox =
          [58, 48, 13, 10]) :=
  ⟨by decide, by decide, by decide,
    send_failure_is_not_fatal ext0 (fun _ => none) 10 1 ⟨START, 2⟩ ⟨[58, 48, 13, 10], []⟩ ev0
      (spec_publish_command (payload_text ext0 ev0)) 73 (by decide) (by decide) (by decide)⟩

/-- C10: the counter is incremented exactly once per command sent, before the
drain. For every open-status event whose `send` transmits the whole command,
the record left by `redis_out_status` is the one the drain
(`clean_response_queue`) leaves when applied to the parser state as it was
and the counter incremented by one (in the arithmetic of its unsigned type,
`counter_bits` wide); when nothing is readable and the increment does not
overflow, the counter becomes `outstanding + 1` and the parser state is
unchanged; so `n` such publishes from a zeroed connection give the counter
`n`. -/
theorem outstanding_incremented_once_before_drain (ext : Ext)
    (oob : Nat → Option Nat) (bs : Nat) (x : Int) (out : Redis) (fd : Sock)
    (ev : Report) (line : List Nat) (len : Int)
    (hopen : ev.status = ext.PortStatus_Open)
    (hcmd : build_command ext ev = some (line, len))
    (hsent : (bs : Int) = len) :
    redis_out_status ext oob bs x out fd ev =
        (clean_response_queue oob x
          ⟨out.state, (out.outstanding + 1) % 2 ^ ext.counter_bits⟩
          (send fd line len)).map (fun v => (v.1.2, v.2))
    ∧ (x = 0 → out.outstanding + 1 < 2 ^ ext.counter_bits →
        redis_out_status ext oob bs x out fd ev =
          .ret (⟨out.state, out.outstanding + 1⟩, select (send fd line len)))
    ∧ (∀ (ps : List Publish) (fd0 : Sock),
        (∀ p ∈ ps, p.complete ext = true ∧ p.x = 0) →
        ps.length < 2 ^ ext.counter_bits →
        ∃ fd1, publish_all ext oob ps ⟨START, 0⟩ fd0 = .ret (⟨START, ps.length⟩, fd1)) := by
  have h1 := redis_out_status_sent ext oob bs x out fd ev line len hopen hcmd hsent
  refine ⟨h1, ?_, ?_⟩
  · intro hx hlt
    rw [h1, hx, clean_response_queue_zero, Nat.mod_eq_of_lt hlt]
    rfl
  · intro ps fd0 hall hlt
    obtain ⟨fd1, hpub, _⟩ := publish_all_quiet ext oob ps ⟨START, 0⟩ fd0 hall
      (by simpa using hlt)
    exact ⟨fd1, by simpa using hpub⟩

/-- C10 at a concrete input: the example event published from counter 7 while
nothing is readable. -/
theorem outstanding_incremented_once_before_drain_witness :
    ev0.status = ext0.PortStatus_Open
    ∧ build_command ext0 ev0 = some (spec_publish_command (payload_text ext0 ev0), 73)
    ∧ ((73 : Nat) : Int) = 73
    ∧ redis_out_status ext0 (fun _ => none) 73 0 ⟨START, 7⟩ ⟨[], []⟩ ev0 =
        .ret (⟨START, 7 + 1⟩,
          select (send ⟨[], []⟩ (spec_publish_command (payload_text ext0 ev0)) 73)) :=
  ⟨by decide, by decide, by decide,
    (outstanding_incremented_once_before_drain ext0 (fun _ => none) 73 0 ⟨START, 7⟩
      ⟨[], []⟩ ev0 (spec_publish_command (payload_text ext0 ev0)) 73 (by decide)
      (by decide) (by decide)).2.1 rfl (by decide)⟩

/-! ## Lemmas on the drain -/

/-- The drain is its body applied to `parse_state_machine`. -/
theorem clean_response_queue_eq_with (oob : Nat → Option Nat) (x : Int) (out : Redis)
    (fd : Sock) :
    clean_response_queue oob x out fd =
      clean_response_queue_with (parse_state_machine oob) x out fd := rfl

/-- Drains while `select` reports 0 only add `select` calls to the log. -/
theorem drain_all_zero (oob : Nat → Option Nat) (k : Nat) :
    ∀ (out : Redis) (fd : Sock),
      drain_all oob (List.replicate k 0) out fd =
        .ret (out, ⟨fd.inbox, fd.log ++ List.replicate k Event.select⟩) := by
  induction k with
  | zero => intro out fd; simp [drain_all]
  | succ k ih =>
    intro out fd
    rw [List.replicate_succ]
    simp only [drain_all, clean_response_queue_zero]
    rw [ih]
    simp [select, List.replicate_succ]

/-- The drain when `select` reports an error or more than one descriptor. -/
theorem clean_response_queue_bad_select (oob : Nat → Option Nat) (x : Int)
    (out : Redis) (fd : Sock) (hx : x < 0 ∨ 1 < x) :
    clean_response_queue oob x out fd = .exit := by
  unfold clean_response_queue
  have h0 : ¬ x = 0 := by omega
  by_cases hneg : x < 0
  · simp only [h0, hneg, if_true, if_false]
  · have h1 : x ≠ 1 := by omega
    simp only [h0, hneg, h1, if_true, if_false, ne_eq, not_false_eq_true]

/-- The drain on a readable socket whose peer has nothing to read. -/
theorem clean_response_queue_closed (oob : Nat → Option Nat) (out : Redis) (fd : Sock)
    (h : fd.inbox = []) :
    clean_response_queue oob 1 out fd = .exit := by
  unfold clean_response_queue
  have h1 : ¬ ((1 : Int) = 0) := by decide
  have h2 : ¬ ((1 : Int) < 0) := by decide
  have h3 : ¬ ((1 : Int) ≠ 1) := by decide
  have h4 : (recv (select fd) 1024).1.length = 0 := by
    simp [recv, select, h]
  simp only [h1, h2, h3, h4, if_false, if_true]

/-! ## The claims on the drain and on the first byte of a reply -/

/-- C11: drain idempotence. For every parser state and counter, when `select`
reports 0 the drain returns at once (value 1) with the record unchanged; the
only call it makes on the socket is the `select` (no `recv`, the unread bytes
stay), and it does not reach the parser (the result is the same whatever
parser the body is given); hence `k` consecutive such drains leave the record
as it was, that is as one drain and as no drain leave it. -/
theorem drain_without_data_is_noop (oob : Nat → Option Nat) (out : Redis)
    (fd : Sock) (k : Nat) :
    clean_response_queue oob 0 out fd =
        .ret ((1, out), ⟨fd.inbox, fd.log ++ [Event.select]⟩)
    ∧ (∀ parse : Redis → List Nat → Outcome (Int × Redis),
        clean_response_queue_with parse 0 out fd =
          .ret ((1, out), ⟨fd.inbox, fd.log ++ [Event.select]⟩))
    ∧ clean_response_queue oob 0 out fd =
        clean_response_queue_with (parse_state_machine oob) 0 out fd
    ∧ drain_all oob (List.replicate k 0) out fd =
        .ret (out, ⟨fd.inbox, fd.log ++ List.replicate k Event.select⟩)
    ∧ (drain_all oob (List.replicate k 0) out fd).result.map Prod.fst =
        (drain_all oob [0] out fd).result.map Prod.fst
    ∧ (drain_all oob (List.replicate k 0) out fd).result.map Prod.fst =
        (drain_all oob [] out fd).result.map Prod.fst := by
  have hk := drain_all_zero oob k out fd
  have h1 := drain_all_zero oob 1 out fd
  have h0 := drain_all_zero oob 0 out fd
  simp only [List.replicate_succ, List.replicate_zero] at h1 h0
  refine ⟨clean_response_queue_zero oob out fd, ?_, rfl, hk, ?_, ?_⟩
  · intro parse
    simp [clean_response_queue_with, select]
  · rw [hk, h1]; rfl
  · rw [hk, h0]; rfl

/-- C17: drain with data ready. When `select` reports 1 and the peer has sent
bytes, the drain makes exactly one `recv`, of at most 1024 bytes, and its
value, parser state and counter are those of `parse_state_machine` on the
bytes read; the bytes after the first 1024 stay unread. A read of length zero
ends in `exit(1)`, and so does an answer of `select` that is negative or
greater than 1. -/
theorem drain_with_data_ready (oob : Nat → Option Nat) (out : Redis) (fd : Sock) :
    (fd.inbox ≠ [] →
        clean_response_queue oob 1 out fd =
          (parse_state_machine oob out (fd.inbox.take 1024)).map
            (fun v => (v, ⟨fd.inbox.drop 1024,
              fd.log ++ [Event.select, Event.recv 1024]⟩)))
    ∧ (fd.inbox.take 1024).length ≤ 1024
    ∧ (fd.inbox = [] → clean_response_queue oob 1 out fd = .exit)
    ∧ (∀ x : Int, (x < 0 ∨ 1 < x) → clean_response_queue oob x out fd = .exit) := by
  refine ⟨?_, ?_, clean_response_queue_closed oob out fd,
    fun x hx => clean_response_queue_bad_select oob x out fd hx⟩
  · intro hne
    have hlen : (fd.inbox.take 1024).length ≠ 0 := by
      cases hin : fd.inbox with
      | nil => exact absurd hin hne
      | cons a l => simp
    rw [clean_response_queue_one oob out fd hlen]
    simp [recv, select]
  · simp [List.length_take]

/-- C15: only `:` and `+` may start a reply. A byte other than `:` and `+`
that is processed in state `START` (the bytes before it were processed to the
end and left the parser in `START`) ends the call in `exit(1)`, whatever the
counter and the bytes after it; the chunk `:` alone moves `START` to
`NUMBER`, the chunk `+` alone moves `START` to `P`, the counter unchanged. -/
theorem only_colon_and_plus_start_a_reply (oob : Nat → Option Nat) (out : Redis)
    (pre rest : List Nat) (b m : Nat)
    (_hlen : (pre ++ b :: rest).length < 2 ^ 32)
    (hcolon : b ≠ 58) (hplus : b ≠ 43)
    (hpre : parse_state_machine oob out pre = .ret (0, ⟨START, m⟩)) :
    parse_state_machine oob out (pre ++ b :: rest) = .exit
    ∧ (∀ n : Nat,
        parse_state_machine oob ⟨START, n⟩ [58] = .ret (0, ⟨NUMBER, n⟩)
        ∧ parse_state_machine oob ⟨START, n⟩ [43] = .ret (0, ⟨P, n⟩)) := by
  constructor
  · simp only [parse_state_machine] at hpre ⊢
    rw [parse_loop_append, hpre]
    simp [parse_loop, hcolon, hplus]
  · intro n
    simp [parse_state_machine, parse_loop]

/-- C15 at a concrete input: the error reply `-ERR\r\n` after `:5\r\n`. -/
theorem only_colon_and_plus_start_a_reply_witness :
    (bytes ":5\r\n" ++ 45 :: bytes "ERR\r\n").length < 2 ^ 32
    ∧ (45 : Nat) ≠ 58 ∧ (45 : Nat) ≠ 43
    ∧ parse_state_machine (fun _ => none) ⟨START, 1⟩ (bytes ":5\r\n") = .ret (0, ⟨START, 0⟩)
    ∧ parse_state_machine (fun _ => none) ⟨START, 1⟩ (bytes ":5\r\n" ++ 45 :: bytes "ERR\r\n")
        = .exit :=
  ⟨by decide, by decide, by decide, by decide,
    (only_colon_and_plus_start_a_reply (fun _ => none) ⟨START, 1⟩ (bytes ":5\r\n")
      (bytes "ERR\r\n") 45 0 (by decide) (by decide) (by decide) (by decide)).1⟩

/-! ## Lemmas on the line reader -/

theorem recv_cons (a : Nat) (t : List Nat) (log : List Event) :
    recv ⟨a :: t, log⟩ 1 = ([a], ⟨t, log ++ [Event.recv 1]⟩) := by
  simp [recv]

theorem recv_nil (log : List Event) (size : Nat) :
    recv ⟨[], log⟩ size = ([], ⟨[], log ++ [Event.recv size]⟩) := by
  simp [recv]

theorem spec_first_line_cons_lf (t : List Nat) : spec_first_line (10 :: t) = [10] := by
  simp [spec_first_line]

theorem spec_first_line_cons (a : Nat) (t : List Nat) (h : a ≠ 10) :
    spec_first_line (a :: t) = a :: spec_first_line t := by
  simp [spec_first_line, h]

/-- The loop stops at the first `\n` when it comes before the buffer is full. -/
theorem recv_line_loop_found (s : List Nat) :
    ∀ (room : Nat) (log : List Event) (count : Nat) (line : List Nat),
      10 ∈ s.take room →
      recv_line_loop room ⟨s, log⟩ count line =
        .ret ((count + (spec_first_line s).length, line ++ spec_first_line s),
          ⟨s.drop (spec_first_line s).length,
            log ++ List.replicate (spec_first_line s).length (Event.recv 1)⟩) := by
  induction s with
  | nil => intro room log count line h; simp at h
  | cons a t ih =>
    intro room log count line h
    cases room with
    | zero => simp at h
    | succ r =>
      simp only [recv_line_loop, recv_cons]
      by_cases ha : a = 10
      · subst ha
        simp [spec_first_line_cons_lf]
      · have ht : 10 ∈ t.take r := by
          simp only [List.take_succ_cons, List.mem_cons] at h
          rcases h with h | h
          · exact absurd h.symm ha
          · exact h
        have hne : ¬ ([a] = [10]) := by simpa using ha
        simp only [List.length_singleton, Nat.one_ne_zero, if_false, hne]
        rw [ih r _ _ _ ht, spec_first_line_cons a t ha]
        simp only [List.length_cons, List.drop_succ_cons, List.replicate_succ,
          List.append_assoc, List.singleton_append]
        congr 3
        omega

/-- The loop stops when the buffer is full and no `\n` was read. -/
theorem recv_line_loop_full (s : List Nat) :
    ∀ (room : Nat) (log : List Event) (count : Nat) (line : List Nat),
      10 ∉ s.take room → room ≤ s.length →
      recv_line_loop room ⟨s, log⟩ count line =
        .ret ((count + room, line ++ s.take room),
          ⟨s.drop room, log ++ List.replicate room (Event.recv 1)⟩) := by
  induction s with
  | nil =>
    intro room log count line _ hlen
    have : room = 0 := by simpa using hlen
    subst this
    simp [recv_line_loop]
  | cons a t ih =>
    intro room log count line h hlen
    cases room with
    | zero => simp [recv_line_loop]
    | succ r =>
      simp only [List.take_succ_cons, List.mem_cons, not_or] at h
      have ha : a ≠ 10 := fun e => h.1 e.symm
      have hne : ¬ ([a] = [10]) := by simpa using ha
      simp only [recv_line_loop, recv_cons, List.length_singleton, Nat.one_ne_zero,
        if_false, hne]
      rw [ih r _ _ _ h.2 (by simpa using hlen)]
      simp only [List.take_succ_cons, List.drop_succ_cons, List.replicate_succ,
        List.append_assoc, List.singleton_append]
      congr 3
      omega

/-- The loop ends in `exit(1)` when the peer has no more bytes before a `\n`
or a full buffer. -/
theorem recv_line_loop_exhausted (s : List Nat) :
    ∀ (room : Nat) (log : List Event) (count : Nat) (line : List Nat),
      10 ∉ s.take room → s.length < room →
      recv_line_loop room ⟨s, log⟩ count line = .exit := by
  induction s with
  | nil =>
    intro room log count line _ hlen
    cases room with
    | zero => simp at hlen
    | succ r => simp [recv_line_loop, recv_nil]
  | cons a t ih =>
    intro room log count line h hlen
    cases room with
    | zero => simp at hlen
    | succ r =>
      simp only [List.take_succ_cons, List.mem_cons, not_or] at h
      have ha : a ≠ 10 := fun e => h.1 e.symm
      have hne : ¬ ([a] = [10]) := by simpa using ha
      simp only [recv_line_loop, recv_cons, List.length_singleton, Nat.one_ne_zero,
        if_false, hne]
      exact ih r _ _ _ h.2 (by simpa using hlen)

/-- The first line is a prefix of a stream that holds a `\n`. -/
theorem spec_first_line_prefix (s : List Nat) (h : 10 ∈ s) :
    spec_first_line s = s.take (spec_first_line s).length := by
  induction s with
  | nil => simp at h
  | cons a t ih =>
    by_cases ha : a = 10
    · subst ha; simp [spec_first_line_cons_lf]
    · have ht : 10 ∈ t := by
        rcases List.mem_cons.mp h with h | h
        · exact absurd h.symm ha
        · exact h
      rw [spec_first_line_cons a t ha, List.length_cons, List.take_succ_cons, ← ih ht]

/-- No prefix that ends in `\n` is shorter than the first line. -/
theorem spec_first_line_shortest (s : List Nat) :
    ∀ k : Nat, (s.take k).getLast? = some 10 → (spec_first_line s).length ≤ k := by
  induction s with
  | nil => intro k h; simp at h
  | cons a t ih =>
    intro k h
    cases k with
    | zero => simp at h
    | succ k =>
      by_cases ha : a = 10
      · subst ha; simp [spec_first_line_cons_lf]
      · rw [spec_first_line_cons a t ha, List.length_cons]
        have : (t.take k).getLast? = some 10 := by
          rw [List.take_succ_cons] at h
          cases htk : t.take k with
          | nil => rw [htk] at h; simp at h; exact absurd h ha
          | cons b l => rw [htk] at h; simpa [List.getLast?_cons_cons] using h
        have := ih k this
        omega

theorem spec_first_line_length_le (s : List Nat) :
    ∀ B : Nat, 10 ∈ s.take B → (spec_first_line s).length ≤ B := by
  induction s with
  | nil => intro B h; simp at h
  | cons a t ih =>
    intro B h
    cases B with
    | zero => simp at h
    | succ r =>
      by_cases ha : a = 10
      · subst ha; simp [spec_first_line_cons_lf]
      · have ht : 10 ∈ t.take r := by
          simp only [List.take_succ_cons, List.mem_cons] at h
          rcases h with h | h
          · exact absurd h.symm ha
          · exact h
        rw [spec_first_line_cons a t ha, List.length_cons]
        have := ih r ht
        omega

theorem lf_mem_take (pre post : List Nat) (B : Nat) (hB : pre.length < B) :
    10 ∈ (pre ++ 10 :: post).take B := by
  induction pre generalizing B with
  | nil =>
    cases B with
    | zero => simp at hB
    | succ r => simp
  | cons a t ih =>
    cases B with
    | zero => simp at hB
    | succ r =>
      simp only [List.cons_append, List.take_succ_cons, List.mem_cons]
      exact Or.inr (ih r (by simpa using hB))

theorem spec_first_line_append (pre post : List Nat) (hpre : 10 ∉ pre) :
    spec_first_line (pre ++ 10 :: post) = pre ++ [10] := by
  induction pre with
  | nil => simp [spec_first_line_cons_lf]
  | cons a t ih =>
    simp only [List.mem_cons, not_or] at hpre
    rw [List.cons_append, spec_first_line_cons a _ (fun e => hpre.1 e.symm), ih hpre.2]
    rfl

/-- The line reader on a stream that starts with a line shorter than the
buffer. -/
theorem recv_line_of_line (pre post : List Nat) (log : List Event) (B : Nat)
    (hpre : 10 ∉ pre) (hB : pre.length < B) :
    recv_line ⟨pre ++ 10 :: post, log⟩ B =
      .ret ((pre.length + 1, pre ++ [10]),
        ⟨post, log ++ List.replicate (pre.length + 1) (Event.recv 1)⟩) := by
  unfold recv_line
  rw [recv_line_loop_found _ B log 0 [] (lf_mem_take pre post B hB),
    spec_first_line_append pre post hpre]
  simp

/-- The open handshake on a peer whose first line is shorter than the buffer:
what decides is the test of line 165. -/
theorem redis_out_open_of_line (line0 : List Nat) (out : Redis) (pre post : List Nat)
    (log : List Event) (hpre : 10 ∉ pre) (hB : pre.length < 1024) :
    redis_out_open 6 line0 out ⟨pre ++ 10 :: post, log⟩ =
      (if pre.length + 1 ≠ 7 ∧
          memcmp ((pre ++ [10]) ++ line0.drop (pre.length + 1)) (bytes "+PONG\r\n") 7 ≠ 0
        then .exit
        else .ret (out, ⟨post, log ++ [Event.send (bytes "PING\r\n") 6] ++
          List.replicate (pre.length + 1) (Event.recv 1)⟩)) := by
  unfold redis_out_open
  simp only [send, ne_eq, not_true_eq_false, if_false]
  rw [recv_line_of_line pre post _ 1024 hpre hB]

/-- The close handshake on a peer whose first line is shorter than the
buffer: what decides is the test of line 189. -/
theorem redis_out_close_of_line (line0 : List Nat) (out : Redis) (pre post : List Nat)
    (log : List Event) (hpre : 10 ∉ pre) (hB : pre.length < 1024) :
    redis_out_close 6 line0 out ⟨pre ++ 10 :: post, log⟩ =
      (if (pre.length + 1 ≠ 5 ∧
          memcmp ((pre ++ [10]) ++ line0.drop (pre.length + 1)) (bytes "+OK\r\n") 5 ≠ 0)
          ∧ (pre.length + 1 ≠ 4 ∧
          memcmp ((pre ++ [10]) ++ line0.drop (pre.length + 1)) (bytes ":0\r\n") 4 ≠ 0)
        then .exit
        else .ret (out, ⟨post, log ++ [Event.send (bytes "QUIT\r\n") 6] ++
          List.replicate (pre.length + 1) (Event.recv 1)⟩)) := by
  unfold redis_out_close
  simp only [send, ne_eq, not_true_eq_false, if_false]
  rw [recv_line_of_line pre post _ 1024 hpre hB]

theorem takeWhile_take_line (pre rest : List Nat) (hpre : 10 ∉ pre) :
    ∀ n : Nat, ((pre ++ 10 :: rest).take n).takeWhile (fun b => b != 10) = pre.take n := by
  induction pre with
  | nil =>
    intro n
    cases n with
    | zero => simp
    | succ k => simp
  | cons a t ih =>
    intro n
    simp only [List.mem_cons, not_or] at hpre
    have ha : a ≠ 10 := fun e => hpre.1 e.symm
    cases n with
    | zero => simp
    | succ k =>
      simp only [List.cons_append, List.take_succ_cons]
      rw [List.takeWhile_cons_of_pos (by simpa using ha), ih hpre.2]

/-- When `memcmp` finds the buffer equal to a literal whose first `\n` is at
offset `m`, the line received has its `\n` at offset `m` too. -/
theorem memcmp_zero_line_length (pre junk lit : List Nat) (n m : Nat)
    (hpre : 10 ∉ pre)
    (hlit : ((lit.take n).takeWhile (fun b => b != 10)).length = m) (hm : m < n)
    (h : memcmp ((pre ++ [10]) ++ junk) lit n = 0) : pre.length = m := by
  unfold memcmp at h
  split_ifs at h with e
  · have e2 : (pre ++ [10]) ++ junk = pre ++ 10 :: junk := by simp
    rw [e2] at e
    have e3 := congrArg (fun l => (l.takeWhile (fun b => b != 10)).length) e
    simp only [takeWhile_take_line pre junk hpre, hlit, List.length_take] at e3
    omega
  · exact absurd h (by decide)

/-- The open handshake returns exactly when the line received has 7 bytes. -/
theorem redis_out_open_returns_iff (line0 : List Nat) (out : Redis)
    (pre post : List Nat) (log : List Event) (hpre : 10 ∉ pre) (hB : pre.length < 1024) :
    redis_out_open 6 line0 out ⟨pre ++ 10 :: post, log⟩ =
      (if pre.length = 6 then
        .ret (out, ⟨post, log ++ [Event.send (bytes "PING\r\n") 6] ++
          List.replicate (pre.length + 1) (Event.recv 1)⟩)
      else .exit) := by
  rw [redis_out_open_of_line line0 out pre post log hpre hB]
  by_cases h6 : pre.length = 6
  · rw [if_pos h6, if_neg]
    rintro ⟨h, _⟩
    exact h (by omega)
  · rw [if_neg h6, if_pos]
    refine ⟨by omega, fun hz => h6 ?_⟩
    exact memcmp_zero_line_length pre _ (bytes "+PONG\r\n") 7 6 hpre (by decide)
      (by decide) hz

/-- The close handshake returns exactly when the line received has 4 or 5
bytes. -/
theorem redis_out_close_returns_iff (line0 : List Nat) (out : Redis)
    (pre post : List Nat) (log : List Event) (hpre : 10 ∉ pre) (hB : pre.length < 1024) :
    redis_out_close 6 line0 out ⟨pre ++ 10 :: post, log⟩ =
      (if pre.length = 3 ∨ pre.length = 4 then
        .ret (out, ⟨post, log ++ [Event.send (bytes "QUIT\r\n") 6] ++
          List.replicate (pre.length + 1) (Event.recv 1)⟩)
      else .exit) := by
  rw [redis_out_close_of_line line0 out pre post log hpre hB]
  by_cases h : pre.length = 3 ∨ pre.length = 4
  · rw [if_pos h, if_neg]
    rintro ⟨⟨h5, _⟩, ⟨h4, _⟩⟩
    rcases h with h | h
    · exact h4 (by omega)
    · exact h5 (by omega)
  · rw [if_neg h, if_pos]
    simp only [not_or] at h
    refine ⟨⟨by omega, fun hz => h.2 ?_⟩, ⟨by omega, fun hz => h.1 ?_⟩⟩
    · exact memcmp_zero_line_length pre _ (bytes "+OK\r\n") 5 4 hpre (by decide)
        (by decide) hz
    · exact memcmp_zero_line_length pre _ (bytes ":0\r\n") 4 3 hpre (by decide)
        (by decide) hz

/-! ## The claims on the line reader and the handshakes -/

/-- C16: the line reader. For every peer byte stream `s` and buffer size `B`
(the loop makes one one-byte `recv` a turn and at most `B` turns): if `s` has
a `\n` within its first `B` bytes, `recv_line` returns the length of the
shortest prefix of `s` that ends in `\n` and the buffer holds that prefix;
otherwise, if `s` has at least `B` bytes, it returns `B` with the first `B`
bytes of `s` in the buffer; otherwise (a read of length zero comes first) it
ends in `exit(1)`. Whenever it returns, the count is at most `B`, the buffer
holds the first `count` bytes of `s`, exactly those bytes were taken from the
stream, and `count` one-byte reads were made. -/
theorem line_reader (s : List Nat) (B : Nat) (log : List Event) :
    (10 ∈ s.take B →
        recv_line ⟨s, log⟩ B =
          .ret (((spec_first_line s).length, spec_first_line s),
            ⟨s.drop (spec_first_line s).length,
              log ++ List.replicate (spec_first_line s).length (Event.recv 1)⟩)
        ∧ spec_first_line s = s.take (spec_first_line s).length
        ∧ (∀ k : Nat, (s.take k).getLast? = some 10 → (spec_first_line s).length ≤ k)
        ∧ (spec_first_line s).length ≤ B)
    ∧ (10 ∉ s.take B → B ≤ s.length →
        recv_line ⟨s, log⟩ B =
          .ret ((B, s.take B), ⟨s.drop B, log ++ List.replicate B (Event.recv 1)⟩))
    ∧ (10 ∉ s.take B → s.length < B → recv_line ⟨s, log⟩ B = .exit)
    ∧ (∀ (count : Nat) (line : List Nat) (fd1 : Sock),
        recv_line ⟨s, log⟩ B = .ret ((count, line), fd1) →
        count ≤ B ∧ line = s.take count ∧ fd1.inbox = s.drop count
          ∧ fd1.log = log ++ List.replicate count (Event.recv 1)) := by
  have hfound : 10 ∈ s.take B →
      recv_line ⟨s, log⟩ B =
        .ret (((spec_first_line s).length, spec_first_line s),
          ⟨s.drop (spec_first_line s).length,
            log ++ List.replicate (spec_first_line s).length (Event.recv 1)⟩) := by
    intro h
    unfold recv_line
    rw [recv_line_loop_found s B log 0 [] h]
    simp
  have hfull : 10 ∉ s.take B → B ≤ s.length →
      recv_line ⟨s, log⟩ B =
        .ret ((B, s.take B), ⟨s.drop B, log ++ List.replicate B (Event.recv 1)⟩) := by
    intro h hB
    unfold recv_line
    rw [recv_line_loop_full s B log 0 [] h hB]
    simp
  have hex : 10 ∉ s.take B → s.length < B → recv_line ⟨s, log⟩ B = .exit := by
    intro h hB
    exact recv_line_loop_exhausted s B log 0 [] h hB
  refine ⟨fun h => ⟨hfound h, spec_first_line_prefix s (List.mem_of_mem_take h),
    spec_first_line_shortest s, spec_first_line_length_le s B h⟩, hfull, hex, ?_⟩
  intro count line fd1 hret
  by_cases h : 10 ∈ s.take B
  · rw [hfound h] at hret
    simp only [Outcome.ret.injEq, Prod.mk.injEq] at hret
    obtain ⟨⟨hc, hl⟩, hfd⟩ := hret
    subst hc hfd
    refine ⟨spec_first_line_length_le s B h, ?_, rfl, rfl⟩
    rw [← hl]
    exact spec_first_line_prefix s (List.mem_of_mem_take h)
  · by_cases hB : B ≤ s.length
    · rw [hfull h hB] at hret
      simp only [Outcome.ret.injEq, Prod.mk.injEq] at hret
      obtain ⟨⟨hc, hl⟩, hfd⟩ := hret
      subst hc hfd
      exact ⟨Nat.le_refl _, hl.symm, rfl, rfl⟩
    · rw [hex h (by omega)] at hret
      exact Outcome.noConfusion hret

/-- C12: open handshake success. `redis_out_open` passes the 6 bytes
`PING\r\n` to `send` and ends in `exit(1)` when `send` reports a count other
than 6; when the bytes the peer sends begin with the line `+PONG\r\n`, it
returns, the record (parser state and counter) unchanged, having taken
exactly those 7 bytes from the connection in 7 one-byte reads. -/
theorem open_handshake_success (line0 : List Nat) (out : Redis) (rest : List Nat)
    (log : List Event) :
    (∀ (bs : Nat) (fd : Sock), bs ≠ 6 → redis_out_open bs line0 out fd = .exit)
    ∧ (bytes "PING\r\n").length = 6
    ∧ redis_out_open 6 line0 out ⟨bytes "+PONG\r\n" ++ rest, log⟩ =
        .ret (out, ⟨rest, log ++ [Event.send (bytes "PING\r\n") 6] ++
          List.replicate 7 (Event.recv 1)⟩) := by
  refine ⟨?_, by decide, ?_⟩
  · intro bs fd hbs
    unfold redis_out_open
    simp only [hbs, ne_eq, not_false_eq_true, if_true]
  · have e : bytes "+PONG\r\n" ++ rest = [43, 80, 79, 78, 71, 13] ++ 10 :: rest := by
      have : bytes "+PONG\r\n" = [43, 80, 79, 78, 71, 13, 10] := by decide
      rw [this]; rfl
    rw [e, redis_out_open_returns_iff line0 out _ rest log (by decide) (by decide)]
    rfl

/-- C13: the test of line 165 joins `count != 7` and the `memcmp` with `&&`,
so the open handshake does not require the literal: on the reply line
`+PONX\r\n` it returns, as it does on every line of 7 bytes; only the lines of
another length end in `exit(1)`. -/
theorem open_handshake_accepts_mismatch (line0 : List Nat) (out : Redis)
    (rest : List Nat) (log : List Event) :
    redis_out_open 6 line0 out ⟨bytes "+PONX\r\n" ++ rest, log⟩ =
        .ret (out, ⟨rest, log ++ [Event.send (bytes "PING\r\n") 6] ++
          List.replicate 7 (Event.recv 1)⟩)
    ∧ (∀ pre : List Nat, 10 ∉ pre → pre.length = 6 →
        redis_out_open 6 line0 out ⟨pre ++ 10 :: rest, log⟩ =
          .ret (out, ⟨rest, log ++ [Event.send (bytes "PING\r\n") 6] ++
            List.replicate 7 (Event.recv 1)⟩))
    ∧ (∀ pre : List Nat, 10 ∉ pre → pre.length < 1024 → pre.length ≠ 6 →
        redis_out_open 6 line0 out ⟨pre ++ 10 :: rest, log⟩ = .exit) := by
  have h7 : ∀ pre : List Nat, 10 ∉ pre → pre.length = 6 →
      redis_out_open 6 line0 out ⟨pre ++ 10 :: rest, log⟩ =
        .ret (out, ⟨rest, log ++ [Event.send (bytes "PING\r\n") 6] ++
          List.replicate 7 (Event.recv 1)⟩) := by
    intro pre hpre hlen
    rw [redis_out_open_returns_iff line0 out pre rest log hpre (by omega), if_pos hlen, hlen]
  refine ⟨?_, h7, ?_⟩
  · have e : bytes "+PONX\r\n" ++ rest = [43, 80, 79, 78, 88, 13] ++ 10 :: rest := by
      have : bytes "+PONX\r\n" = [43, 80, 79, 78, 88, 13, 10] := by decide
      rw [this]; rfl
    rw [e]
    exact h7 _ (by decide) (by decide)
  · intro pre hpre hB hlen
    rw [redis_out_open_returns_iff line0 out pre rest log hpre hB, if_neg hlen]

/-- C14: the test of line 189 joins its conditions with `&&`, so after
`QUIT\r\n` the close handshake returns on every reply line of 4 or 5 bytes:
on `+OK\r\n` and `:0\r\n`, and also on `:1\r\n` and on `-ERR\n`; only the
lines of another length end in `exit(1)`. -/
theorem close_handshake_accepts_other_lines (line0 : List Nat) (out : Redis)
    (rest : List Nat) (log : List Event) :
    redis_out_close 6 line0 out ⟨bytes ":1\r\n" ++ rest, log⟩ =
        .ret (out, ⟨rest, log ++ [Event.send (bytes "QUIT\r\n") 6] ++
          List.replicate 4 (Event.recv 1)⟩)
    ∧ redis_out_close 6 line0 out ⟨bytes "-ERR\n" ++ rest, log⟩ =
        .ret (out, ⟨rest, log ++ [Event.send (bytes "QUIT\r\n") 6] ++
          List.replicate 5 (Event.recv 1)⟩)
    ∧ redis_out_close 6 line0 out ⟨bytes "+OK\r\n" ++ rest, log⟩ =
        .ret (out, ⟨rest, log ++ [Event.send (bytes "QUIT\r\n") 6] ++
          List.replicate 5 (Event.recv 1)⟩)
    ∧ redis_out_close 6 line0 out ⟨bytes ":0\r\n" ++ rest, log⟩ =
        .ret (out, ⟨rest, log ++ [Event.send (bytes "QUIT\r\n") 6] ++
          List.replicate 4 (Event.recv 1)⟩)
    ∧ (∀ pre : List Nat, 10 ∉ pre → (pre.length = 3 ∨ pre.length = 4) →
        (redis_out_close 6 line0 out ⟨pre ++ 10 :: rest, log⟩).result.map Prod.fst
          = some out)
    ∧ (∀ pre : List Nat, 10 ∉ pre → pre.length < 1024 →
        ¬ (pre.length = 3 ∨ pre.length = 4) →
        redis_out_close 6 line0 out ⟨pre ++ 10 :: rest, log⟩ = .exit) := by
  have hline : ∀ (l pre : List Nat), l = pre ++ [10] → 10 ∉ pre →
      (pre.length = 3 ∨ pre.length = 4) →
      redis_out_close 6 line0 out ⟨l ++ rest, log⟩ =
        .ret (out, ⟨rest, log ++ [Event.send (bytes "QUIT\r\n") 6] ++
          List.replicate (pre.length + 1) (Event.recv 1)⟩) := by
    intro l pre hl hpre hlen
    have e : l ++ rest = pre ++ 10 :: rest := by rw [hl]; simp
    rw [e, redis_out_close_returns_iff line0 out pre rest log hpre (by omega), if_pos hlen]
  refine ⟨hline _ [58, 49, 13] (by decide) (by decide) (by decide),
    hline _ [45, 69, 82, 82] (by decide) (by decide) (by decide),
    hline _ [43, 79, 75, 13] (by decide) (by decide) (by decide),
    hline _ [58, 48, 13] (by decide) (by decide) (by decide), ?_, ?_⟩
  · intro pre hpre hlen
    rw [redis_out_close_returns_iff line0 out pre rest log hpre (by omega), if_pos hlen]
    rfl
  · intro pre hpre hB hlen
    rw [redis_out_close_returns_iff line0 out pre rest log hpre hB, if_neg hlen]

/-! ## The claim on the payload -/

theorem spec_decimal_eq (n : Nat) : spec_decimal n = fmt_u n := rfl

theorem int_cast_of_range (t : Int) (h0 : 0 ≤ t) (h1 : t < 2 ^ 31) : int_cast t = t := by
  unfold int_cast
  have e : (t + 2 ^ 31) % 2 ^ 32 = t + 2 ^ 31 :=
    Int.emod_eq_of_lt (by omega) (by omega)
  rw [e]
  omega

theorem fmt_d_of_nonneg (t : Int) (h0 : 0 ≤ t) : fmt_d t = fmt_u t.toNat := by
  unfold fmt_d
  rw [if_neg (by omega)]

/-- C18: payload layout. For every event whose protocol name `p` and reason
string `r` are C strings (no zero byte), whose timestamp `t` has
`0 <= t < 2^31` and whose payload fits the 128-byte buffer, the payload built
by `redis_out_status` is the record `a.b.c.d,port,p,t,ttl,r`: `a`, `b`, `c`,
`d` the decimal values of bits 31..24, 23..16, 15..8 and 7..0 of `ip`, and
`port`, `t`, `ttl` in decimal without padding; it is what the first
`sprintf_s` stores and what the command carries. -/
theorem payload_layout (ext : Ext) (ev : Report)
    (hname : ∀ b ∈ ext.name_from_ip_proto ev.ip_proto, b ≠ 0)
    (hreason : ∀ b ∈ ext.reason_string ev.reason, b ≠ 0)
    (ht0 : 0 ≤ ev.timestamp) (ht1 : ev.timestamp < 2 ^ 31)
    (hfit : (payload_text ext ev).length < 128) :
    payload_text ext ev =
        spec_payload ev.ip ev.port (ext.name_from_ip_proto ev.ip_proto)
          ev.timestamp.toNat ev.ttl (ext.reason_string ev.reason)
    ∧ sprintf_s 128 (payload_text ext ev) =
        some (spec_payload ev.ip ev.port (ext.name_from_ip_proto ev.ip_proto)
          ev.timestamp.toNat ev.ttl (ext.reason_string ev.reason),
          ((spec_payload ev.ip ev.port (ext.name_from_ip_proto ev.ip_proto)
            ev.timestamp.toNat ev.ttl (ext.reason_string ev.reason)).length : Int))
    ∧ build_command ext ev =
        some (spec_publish_command
          (spec_payload ev.ip ev.port (ext.name_from_ip_proto ev.ip_proto)
            ev.timestamp.toNat ev.ttl (ext.reason_string ev.reason)),
          ((spec_publish_command
            (spec_payload ev.ip ev.port (ext.name_from_ip_proto ev.ip_proto)
              ev.timestamp.toNat ev.ttl (ext.reason_string ev.reason))).length : Int)) := by
  have hdot : bytes "." = [46] := by decide
  have hcomma : bytes "," = [44] := by decide
  have e : payload_text ext ev =
      spec_payload ev.ip ev.port (ext.name_from_ip_proto ev.ip_proto)
        ev.timestamp.toNat ev.ttl (ext.reason_string ev.reason) := by
    unfold payload_text spec_payload
    rw [fmt_s_eq_self _ hname, fmt_s_eq_self _ hreason,
      int_cast_of_range _ ht0 ht1, fmt_d_of_nonneg _ ht0, hdot, hcomma]
    simp only [spec_decimal_eq, Nat.shiftRight_eq_div_pow, Nat.pow_zero, Nat.div_one]
  refine ⟨e, ?_, ?_⟩
  · rw [← e]; exact sprintf_s_fit _ _ hfit
  · rw [← e]; exact build_command_eq ext ev hfit

/-- C18 at a concrete input: the example event. -/
theorem payload_layout_witness :
    (∀ b ∈ ext0.name_from_ip_proto ev0.ip_proto, b ≠ 0)
    ∧ (∀ b ∈ ext0.reason_string ev0.reason, b ≠ 0)
    ∧ 0 ≤ ev0.timestamp ∧ ev0.timestamp < 2 ^ 31
    ∧ (payload_text ext0 ev0).length < 128
    ∧ payload_text ext0 ev0 =
        spec_payload ev0.ip ev0.port (ext0.name_from_ip_proto ev0.ip_proto)
          ev0.timestamp.toNat ev0.ttl (ext0.reason_string ev0.reason)
    ∧ spec_payload 0x01020304 80 (bytes "tcp") 1700000000 64 (bytes "syn-ack") =
        bytes "1.2.3.4,80,tcp,1700000000,64,syn-ack" :=
  ⟨by decide, by decide, by decide, by decide, by decide,
    (payload_layout ext0 ev0 (by decide) (by decide) (by decide) (by decide)
      (by decide)).1,
    by decide⟩

/-! ## Lemmas on the states of the parser -/

/-- One turn of the loop: the byte is consumed and the loop goes on in a state
that does not depend on the bytes after it, or the call ends there; it ends
with the value 1 only on a `\n` that the literal holds at the index read. -/
theorem parse_loop_step (oob : Nat → Option Nat) (i c st n : Nat) :
    (∃ st1 n1, (st1 = START ∨ st1 = NUMBER ∨ st1 = P) ∧ n1 ≤ n ∧
        ∀ tail, parse_loop oob i (c :: tail) st n = parse_loop oob (i + 1) tail st1 n1)
    ∨ (∀ tail, parse_loop oob i (c :: tail) st n = .exit)
    ∨ (∀ tail, parse_loop oob i (c :: tail) st n = .undefined)
    ∨ (c = 10 ∧ literal_at oob (literal_index i) = some 10
        ∧ (st = P ∨ st = PO ∨ st = PON ∨ st = PONG_CR ∨ st = PONG_CR_LF)
        ∧ ∀ tail, parse_loop oob i (c :: tail) st n = .ret (1, ⟨0, n⟩)) := by
  by_cases h0 : st = START
  · by_cases h1 : c = 43
    · exact Or.inl ⟨P, n, Or.inr (Or.inr rfl), Nat.le_refl _, fun tail => by
        simp [parse_loop, h0, h1]⟩
    · by_cases h2 : c = 58
      · exact Or.inl ⟨NUMBER, n, Or.inr (Or.inl rfl), Nat.le_refl _, fun tail => by
          simp [parse_loop, h0, h2]⟩
      · exact Or.inr (Or.inl fun tail => by
          simp [parse_loop, h0, h1, h2])
  · by_cases h1 : st = NUMBER
    · subst h1
      by_cases h2 : (isdigit c || c == 13) = true
      · exact Or.inl ⟨NUMBER, n, Or.inr (Or.inl rfl), Nat.le_refl _, fun tail => by
          simp only [parse_loop]
          rw [if_pos True.intro, if_pos h2, if_neg h0]⟩
      · by_cases h3 : c = 10
        · by_cases h4 : n = 0
          · exact Or.inr (Or.inl fun tail => by
              simp only [parse_loop]
              rw [if_pos True.intro, if_neg h2, if_pos h3, if_pos h4, if_neg h0])
          · exact Or.inl ⟨0, n - 1, Or.inl rfl, Nat.sub_le _ _, fun tail => by
              simp only [parse_loop]
              rw [if_pos True.intro, if_neg h2, if_pos h3, if_neg h4, if_neg h0]⟩
        · exact Or.inr (Or.inl fun tail => by
            simp only [parse_loop]
            rw [if_pos True.intro, if_neg h2, if_neg h3, if_neg h0])
    · by_cases h2 : st = P ∨ st = PO ∨ st = PON ∨ st = PONG_CR ∨ st = PONG_CR_LF
      · cases hl : literal_at oob (literal_index i) with
        | none =>
          exact Or.inr (Or.inr (Or.inl fun tail => by
            simp only [parse_loop, h0, h1, if_false]
            rw [if_pos h2, hl]))
        | some e =>
          by_cases h3 : e = c
          · by_cases h4 : c = 10
            · refine Or.inr (Or.inr (Or.inr ⟨h4, ?_, h2, fun tail => ?_⟩))
              · rw [h3, h4]
              · simp only [parse_loop, h0, h1, if_false]
                rw [if_pos h2, hl]
                simp only []
                rw [if_pos h3, if_pos h4]
            · exact Or.inr (Or.inl fun tail => by
                simp only [parse_loop, h0, h1, if_false]
                rw [if_pos h2, hl]
                simp only []
                rw [if_pos h3, if_neg h4])
          · exact Or.inr (Or.inl fun tail => by
              simp only [parse_loop, h0, h1, if_false]
              rw [if_pos h2, hl]
              simp only []
              rw [if_neg h3])
      · exact Or.inr (Or.inl fun tail => by
          simp only [parse_loop, h0, h1, if_false]
          rw [if_neg h2])

/-- The literal holds `\n` at index 6 only: the index read is 6 exactly at
chunk offset 8. -/
theorem literal_lf_offset (oob : Nat → Option Nat) (i : Nat)
    (hoob : ∀ k, oob k ≠ some 10) (hi : i < 2 ^ 32)
    (h : literal_at oob (literal_index i) = some 10) : i = 8 := by
  unfold literal_at at h
  split_ifs at h with hlt
  · have h6 : literal_index i = 6 := by
      generalize literal_index i = idx at h hlt
      interval_cases idx <;> simp [PONG_literal] at h ⊢
    unfold literal_index P at h6
    omega
  · exact absurd h (hoob _)

/-- From `START`, `NUMBER` or `P` a call that returns leaves one of these
three states. -/
theorem parse_loop_state_closed (oob : Nat → Option Nat) (px : List Nat) :
    ∀ (i st n : Nat) (rv : Int) (r : Redis),
      (st = START ∨ st = NUMBER ∨ st = P) →
      parse_loop oob i px st n = .ret (rv, r) →
      (r.state = START ∨ r.state = NUMBER ∨ r.state = P) := by
  induction px with
  | nil =>
    intro i st n rv r hst h
    simp only [parse_loop, Outcome.ret.injEq, Prod.mk.injEq] at h
    rw [← h.2]
    exact hst
  | cons c rest ih =>
    intro i st n rv r hst h
    rcases parse_loop_step oob i c st n with ⟨st1, n1, hst1, _, hs⟩ | hs | hs | ⟨_, _, _, hs⟩
    · rw [hs rest] at h
      exact ih _ _ _ _ _ hst1 h
    · rw [hs rest] at h; exact Outcome.noConfusion h
    · rw [hs rest] at h; exact Outcome.noConfusion h
    · rw [hs rest] at h
      simp only [Outcome.ret.injEq, Prod.mk.injEq] at h
      rw [← h.2]
      exact Or.inl rfl

/-- A call that returns 1 met a `\n` at chunk offset 8 and did not look at
the bytes after it. -/
theorem parse_loop_match (oob : Nat → Option Nat) (hoob : ∀ k, oob k ≠ some 10)
    (px : List Nat) :
    ∀ (i st n : Nat) (r : Redis), i + px.length < 2 ^ 32 →
      parse_loop oob i px st n = .ret (1, r) →
      ∃ pre post, px = pre ++ 10 :: post ∧ i + pre.length = 8 ∧ r.state = START
        ∧ parse_loop oob i (pre ++ [10]) st n = .ret (1, r) := by
  induction px with
  | nil =>
    intro i st n r _ h
    simp only [parse_loop, Outcome.ret.injEq, Prod.mk.injEq] at h
    exact absurd h.1 (by decide)
  | cons c rest ih =>
    intro i st n r hlen h
    simp only [List.length_cons] at hlen
    rcases parse_loop_step oob i c st n with ⟨st1, n1, _, _, hs⟩ | hs | hs | ⟨hc, hl, _, hs⟩
    · rw [hs rest] at h
      obtain ⟨pre, post, hpx, hoff, hstate, hrun⟩ := ih (i + 1) st1 n1 r (by omega) h
      refine ⟨c :: pre, post, by rw [hpx]; rfl, by simp only [List.length_cons]; omega,
        hstate, ?_⟩
      rw [List.cons_append, hs, hrun]
    · rw [hs rest] at h; exact Outcome.noConfusion h
    · rw [hs rest] at h; exact Outcome.noConfusion h
    · have hi : i = 8 := literal_lf_offset oob i hoob (by omega) hl
      rw [hs rest] at h
      simp only [Outcome.ret.injEq, Prod.mk.injEq, true_and] at h
      refine ⟨[], rest, by rw [hc]; rfl, by simpa using hi, by rw [← h]; rfl, ?_⟩
      rw [List.nil_append, ← hc, hs, h]

/-- The persisted state after feeding chunks from `START`, `NUMBER` or `P`. -/
theorem feed_state_closed (oob : Nat → Option Nat) (chunks : List (List Nat)) :
    ∀ (out out1 : Redis), (out.state = START ∨ out.state = NUMBER ∨ out.state = P) →
      feed oob chunks out = .ret out1 →
      (out1.state = START ∨ out1.state = NUMBER ∨ out1.state = P) := by
  induction chunks with
  | nil =>
    intro out out1 hst h
    simp only [feed, Outcome.ret.injEq] at h
    rw [← h]; exact hst
  | cons c cs ih =>
    intro out out1 hst h
    simp only [feed, parse_state_machine] at h
    cases hc : parse_loop oob 0 c out.state out.outstanding with
    | exit => rw [hc] at h; exact Outcome.noConfusion h
    | undefined => rw [hc] at h; exact Outcome.noConfusion h
    | ret v =>
      obtain ⟨rv, r⟩ := v
      rw [hc] at h
      exact ih r out1 (parse_loop_state_closed oob c 0 _ _ rv r hst hc) h

/-! ## The claims on the states of the parser -/

/-- C19: reachable parser states. Every state persisted in `out->redis.state`
after a sequence of calls of `parse_state_machine` that all return, started
from the zeroed state `START`, is `START`, `NUMBER` or `P`; the sub-states
`PO`, `PON`, `PONG`, `PONG_CR` and `PONG_CR_LF` are never persisted, because a
byte processed in a literal-match state ends the call: with the value 1 and
the state reset to `START`, or without a return (`exit(1)`, or the read
outside the literal), and a byte processed in state `PONG` ends it in
`exit(1)`. -/
theorem persisted_states (oob : Nat → Option Nat) (chunks : List (List Nat))
    (n : Nat) (out1 : Redis)
    (_hlen : ∀ c ∈ chunks, c.length < 2 ^ 32)
    (h : feed oob chunks ⟨START, n⟩ = .ret out1) :
    (out1.state = START ∨ out1.state = NUMBER ∨ out1.state = P)
    ∧ (out1.state ≠ PO ∧ out1.state ≠ PON ∧ out1.state ≠ PONG
        ∧ out1.state ≠ PONG_CR ∧ out1.state ≠ PONG_CR_LF)
    ∧ (∀ (i c st m : Nat) (rest : List Nat),
        (st = P ∨ st = PO ∨ st = PON ∨ st = PONG_CR ∨ st = PONG_CR_LF) →
        parse_loop oob i (c :: rest) st m = .ret (1, ⟨START, m⟩)
          ∨ parse_loop oob i (c :: rest) st m = .exit
          ∨ parse_loop oob i (c :: rest) st m = .undefined)
    ∧ (∀ (i c m : Nat) (rest : List Nat),
        parse_loop oob i (c :: rest) PONG m = .exit) := by
  have hst := feed_state_closed oob chunks ⟨START, n⟩ out1 (Or.inl rfl) h
  refine ⟨hst, ?_, ?_, ?_⟩
  · rcases hst with e | e | e <;> rw [e] <;> decide
  · intro i c st m rest hlit
    have hne0 : st ≠ START := by
      rcases hlit with e | e | e | e | e <;> rw [e] <;> decide
    have hne1 : st ≠ NUMBER := by
      rcases hlit with e | e | e | e | e <;> rw [e] <;> decide
    simp only [parse_loop]
    rw [if_neg hne0, if_neg hne1, if_pos hlit]
    cases literal_at oob (literal_index i) with
    | none => exact Or.inr (Or.inr rfl)
    | some e =>
      simp only []
      by_cases h1 : e = c
      · by_cases h2 : c = 10
        · rw [if_pos h1, if_pos h2]; exact Or.inl rfl
        · rw [if_pos h1, if_neg h2]; exact Or.inr (Or.inl rfl)
      · rw [if_neg h1]; exact Or.inr (Or.inl rfl)
  · intro i c m rest
    simp [parse_loop, START, NUMBER, P, PO, PON, PONG, PONG_CR, PONG_CR_LF]

/-- C19 at a concrete input: the chunks `:5` and `\r\n+` leave the state `P`. -/
theorem persisted_states_witness :
    (∀ c ∈ [[58, 53], [13, 10, 43]], c.length < 2 ^ 32)
    ∧ feed (fun _ => none) [[58, 53], [13, 10, 43]] ⟨START, 1⟩ = .ret ⟨P, 0⟩
    ∧ ((⟨P, 0⟩ : Redis).state = START ∨ (⟨P, 0⟩ : Redis).state = NUMBER
        ∨ (⟨P, 0⟩ : Redis).state = P) :=
  ⟨by decide, by decide,
    (persisted_states (fun _ => none) [[58, 53], [13, 10, 43]] 1 ⟨P, 0⟩ (by decide)
      (by decide)).1⟩

/-- C20: when the parser reports a handshake match. As long as a read outside
the literal (which C does not define) does not deliver a `\n`: for every
starting state, counter and chunk, if `parse_state_machine` returns 1 then the
chunk has at least 9 bytes, its byte at offset 8 (from the start of the
chunk) is `\n`, the persisted state is `START`, and the bytes after offset 8
are not processed (the call returns the same on the first 9 bytes followed by
anything); so no chunk of 8 bytes or fewer, in particular `+PONG\r\n` and
`+OK\r\n`, yields a handshake match. -/
theorem handshake_match_only_at_offset_8 (oob : Nat → Option Nat) (out : Redis)
    (px : List Nat)
    (hoob : ∀ k, oob k ≠ some 10)
    (hlen : px.length < 2 ^ 32) :
    (∀ r : Redis, parse_state_machine oob out px = .ret (1, r) →
        9 ≤ px.length ∧ px[8]? = some 10 ∧ r.state = START
        ∧ ∀ tail : List Nat, parse_state_machine oob out (px.take 9 ++ tail) = .ret (1, r))
    ∧ (px.length ≤ 8 → ∀ r : Redis, parse_state_machine oob out px ≠ .ret (1, r))
    ∧ (∀ (out0 r : Redis),
        parse_state_machine oob out0 (bytes "+PONG\r\n") ≠ .ret (1, r)
        ∧ parse_state_machine oob out0 (bytes "+OK\r\n") ≠ .ret (1, r)) := by
  have key : ∀ (o : Redis) (qx : List Nat) (r : Redis), qx.length < 2 ^ 32 →
      parse_state_machine oob o qx = .ret (1, r) →
      9 ≤ qx.length ∧ qx[8]? = some 10 ∧ r.state = START
        ∧ ∀ tail : List Nat, parse_state_machine oob o (qx.take 9 ++ tail) = .ret (1, r) := by
    intro o qx r hq h
    obtain ⟨pre, post, hpx, hoff, hstate, hrun⟩ :=
      parse_loop_match oob hoob qx 0 o.state o.outstanding r (by omega) h
    have hpre : pre.length = 8 := by omega
    subst hpx
    refine ⟨by simp only [List.length_append, List.length_cons]; omega, ?_, hstate, ?_⟩
    · rw [List.getElem?_append_right (by omega)]
      simp [hpre]
    · intro tail
      have e : (pre ++ 10 :: post).take 9 = pre ++ [10] := by
        rw [List.take_append_eq_append_take, List.take_of_length_le (by omega), hpre]
        rfl
      rw [e]
      simp only [parse_state_machine]
      rw [parse_loop_append, hrun]
      rfl
  refine ⟨fun r h => key out px r hlen h, ?_, ?_⟩
  · intro h8 r h
    have := (key out px r hlen h).1
    omega
  · intro out0 r
    constructor
    · intro h
      have := (key out0 (bytes "+PONG\r\n") r (by decide) h).1
      exact absurd this (by decide)
    · intro h
      have := (key out0 (bytes "+OK\r\n") r (by decide) h).1
      exact absurd this (by decide)

/-- C20 at a concrete input: the chunk `:0\r\n:0\n+\n` has its match at
offset 8. -/
theorem handshake_match_only_at_offset_8_witness :
    (∀ k, (fun _ => none : Nat → Option Nat) k ≠ some 10)
    ∧ (bytes ":0\r\n:0\n+\n").length < 2 ^ 32
    ∧ parse_state_machine (fun _ => none) ⟨START, 3⟩ (bytes ":0\r\n:0\n+\n")
        = .ret (1, ⟨START, 1⟩)
    ∧ (9 ≤ (bytes ":0\r\n:0\n+\n").length ∧ (bytes ":0\r\n:0\n+\n")[8]? = some 10
        ∧ (⟨START, 1⟩ : Redis).state = START
        ∧ ∀ tail : List Nat,
            parse_state_machine (fun _ => none) ⟨START, 3⟩
              ((bytes ":0\r\n:0\n+\n").take 9 ++ tail) = .ret (1, ⟨START, 1⟩)) :=
  ⟨fun _ => by simp, by decide, by decide,
    (handshake_match_only_at_offset_8 (fun _ => none) ⟨START, 3⟩ (bytes ":0\r\n:0\n+\n")
      (fun _ => by simp) (by decide)).1 ⟨START, 1⟩ (by decide)⟩

end OutRedis